import Mathlib

/-!
Shallow embedding of the request-serving core of the Redis_C-17 repository
(RESP parser, command handler, adaptive cache, data store, accept loop),
with theorems settling the claims of the specification against it.

Modelling conventions:
* C++ `std::string` byte buffers are `List Char` (parser) or `String`
  (store/cache values); bytes are identified with characters.
* `std::steady_clock` is a logical millisecond tick stored in the state and
  advanced once per operation; every `now()` taken during one call sees the
  same tick.
* External libraries are parameters: the xxHash shard hash is an arbitrary
  `String → Nat`, zlib compression is an arbitrary pair of functions.
* C++ exceptions (`std::stoi`) are explicit result constructors.
-/

namespace RESP

/-- The exceptions `std::stoi` can raise (RESPParser.cpp lines 198 and 235). -/
inductive Exn where
  | invalidArgument
  | outOfRange
deriving DecidableEq, Repr

/-- `RESPParser::RESPValue` (RESPParser.h): a parsed RESP value.  The
`Invalid` default tag is never produced by the parsing code and is omitted;
a null bulk string is represented by `bulk []` exactly as the C++ code
stores an empty `string_view` for it (RESPParser.cpp lines 202-208), and a
null array by `array []` (lines 242-245). -/
inductive RVal where
  | simple (s : List Char)
  | error (s : List Char)
  | integer (s : List Char)
  | bulk (s : List Char)
  | array (elems : List RVal)

/-- Whether a value is a bulk string (`element->type == Type::BulkString`). -/
def RVal.isBulk : RVal → Bool
  | .bulk _ => true
  | _ => false

/-- The payload of a bulk string. -/
def RVal.bulkStr : RVal → List Char
  | .bulk s => s
  | _ => []

/-- `RESPValue::to_command` (RESPParser.cpp lines 7-23): an array whose
elements are all bulk strings yields their payloads; any other value, or an
array with a non-bulk element, yields the empty command.  The C++ loop
returns `{}` on the first non-bulk element, which agrees with the
all-elements check. -/
def toCommand (v : RVal) : List (List Char) :=
  match v with
  | .array elems => if elems.all RVal.isBulk then elems.map RVal.bulkStr else []
  | _ => []

/-- A character used by `std::isspace` in the default locale (skipped by
`std::stoi` before the number). -/
def isSpaceChar (c : Char) : Bool :=
  c == ' ' || c == '\t' || c == '\n' || c == '\x0b' || c == '\x0c' || c == '\r'

/-- Value of a digit string. -/
def digitsToNat (ds : List Char) : Nat :=
  ds.foldl (fun a c => a * 10 + (c.toNat - 48)) 0

/-- `std::stoi`: skip leading whitespace, optional sign, then at least one
digit (else `std::invalid_argument`); further non-digit characters are
ignored; values outside `int` raise `std::out_of_range`. -/
def stoi (s : List Char) : Except Exn Int :=
  let s1 := s.dropWhile isSpaceChar
  let signed : Bool × List Char :=
    match s1 with
    | '-' :: r => (true, r)
    | '+' :: r => (false, r)
    | r => (false, r)
  let ds := signed.2.takeWhile Char.isDigit
  if ds.isEmpty then Except.error Exn.invalidArgument
  else
    let v : Int := if signed.1 then -(digitsToNat ds : Int) else (digitsToNat ds : Int)
    if v < -2147483648 ∨ 2147483647 < v then Except.error Exn.outOfRange
    else Except.ok v

/-- `RESPParser::find_crlf` (RESPParser.cpp lines 268-276): the first index
`i ≥ start` with `i < size - 1`, `data[i] = CR` and `data[i+1] = LF`.  (For
an empty buffer the C++ loop bound underflows, but `find_crlf` is only ever
reached with a non-empty buffer, where both formulations agree.) -/
def findCrlf (data : List Char) (start : Nat) : Option Nat :=
  ((List.range data.length).drop start).find?
    (fun i => decide (i + 1 < data.length) && (data.getD i ' ' == '\r')
      && (data.getD (i + 1) ' ' == '\n'))

/-- Result of one `try_parse_next`-style attempt.  The C++ functions take
the cursor by reference and mutate it even on failure, so every outcome
carries the final cursor value:
* `thrown e p` — a C++ exception escaped with the cursor left at `p`;
* `incomplete p` — `std::nullopt` was returned with the cursor at `p`;
* `value v p` — a complete value with the cursor advanced past it. -/
inductive PResult where
  | thrown (e : Exn) (pos : Nat)
  | incomplete (pos : Nat)
  | value (v : RVal) (pos : Nat)

/-- `RESPParser::parse_simple_string` (RESPParser.cpp lines 136-151).  Note
the cursor is advanced past the type byte before the CRLF check, so an
incomplete value still moves the cursor. -/
def parseSimpleString (data : List Char) (p0 : Nat) : PResult :=
  let pos := p0 + 1
  match findCrlf data pos with
  | none => .incomplete pos
  | some crlf => .value (.simple ((data.drop pos).take (crlf - pos))) (crlf + 2)

/-- `RESPParser::parse_error` (RESPParser.cpp lines 153-168). -/
def parseErrorVal (data : List Char) (p0 : Nat) : PResult :=
  let pos := p0 + 1
  match findCrlf data pos with
  | none => .incomplete pos
  | some crlf => .value (.error ((data.drop pos).take (crlf - pos))) (crlf + 2)

/-- `RESPParser::parse_integer` (RESPParser.cpp lines 170-185). -/
def parseIntegerVal (data : List Char) (p0 : Nat) : PResult :=
  let pos := p0 + 1
  match findCrlf data pos with
  | none => .incomplete pos
  | some crlf => .value (.integer ((data.drop pos).take (crlf - pos))) (crlf + 2)

/-- `RESPParser::parse_bulk_string` (RESPParser.cpp lines 187-222).  The
length is parsed with `std::stoi`, whose exception escapes with the cursor
just past the `$`; a negative length yields a null bulk string; when the
payload is not fully buffered, `nullopt` is returned with the cursor
already moved past the `$len CRLF` header. -/
def parseBulkString (data : List Char) (p0 : Nat) : PResult :=
  let pos := p0 + 1
  match findCrlf data pos with
  | none => .incomplete pos
  | some crlf =>
    match stoi ((data.drop pos).take (crlf - pos)) with
    | .error e => .thrown e pos
    | .ok len =>
      let pos2 := crlf + 2
      if len < 0 then .value (.bulk []) pos2
      else if data.length < pos2 + len.toNat + 2 then .incomplete pos2
      else .value (.bulk ((data.drop pos2).take len.toNat)) (pos2 + len.toNat + 2)

/-- The type-marker test of the default branch of `try_parse_next`
(RESPParser.cpp lines 120-130). -/
def isMarker (c : Char) : Bool :=
  c == '+' || c == '-' || c == ':' || c == '$' || c == '*'

/-- The default branch of `try_parse_next`: skip bytes until a type marker
or the end of the buffer. -/
def skipInvalid (data : List Char) (pos : Nat) : Nat :=
  pos + ((data.drop pos).takeWhile (fun c => !(isMarker c))).length

/-- The mutually recursive calls of `try_parse_next` / `parse_array` and
the element loop of `parse_array`, merged into one function so that the
recursion is structural (on an explicit fuel). -/
inductive PCall where
  | next (pos : Nat)
  | arr (pos : Nat)
  | elems (count : Nat) (pos : Nat) (acc : List RVal)

/-- The cursor of a pending call. -/
def PCall.pos : PCall → Nat
  | .next p => p
  | .arr p => p
  | .elems _ p _ => p

/-- `RESPParser::try_parse_next` (RESPParser.cpp lines 94-134) together
with `parse_array` (lines 224-259).  `.next` dispatches on the type byte;
`.arr` parses an array header; `.elems` is `parse_array`'s element loop.
The fuel only bounds the recursion depth: every recursive call in the C++
code either consumes input or immediately will, so `3 * data.length + 16`
units (used by the entry point below) can never run out; out-of-fuel
returns `incomplete`, mirroring that the C++ loops always terminate. -/
def parseStep (data : List Char) : Nat → PCall → PResult
  | 0, c => .incomplete c.pos
  | fuel + 1, .next pos =>
    if data.length ≤ pos then .incomplete pos
    else
      match data.getD pos ' ' with
      | '+' => parseSimpleString data pos
      | '-' => parseErrorVal data pos
      | ':' => parseIntegerVal data pos
      | '$' => parseBulkString data pos
      | '*' => parseStep data fuel (.arr pos)
      | _ => .incomplete (skipInvalid data pos)
  | fuel + 1, .arr pos =>
    let pos1 := pos + 1
    match findCrlf data pos1 with
    | none => .incomplete pos1
    | some crlf =>
      match stoi ((data.drop pos1).take (crlf - pos1)) with
      | .error e => .thrown e pos1
      | .ok count =>
        let pos2 := crlf + 2
        if count < 0 then .value (.array []) pos2
        else parseStep data fuel (.elems count.toNat pos2 [])
  | _ + 1, .elems 0 pos acc => .value (.array acc.reverse) pos
  | fuel + 1, .elems (c + 1) pos acc =>
    match parseStep data fuel (.next pos) with
    | .thrown e p => .thrown e p
    | .incomplete p => .incomplete p
    | .value v p => parseStep data fuel (.elems c p (v :: acc))

/-- Fuel that always suffices for `parseStep` on `data` (each recursive
step consumes at least one buffered byte per constant number of calls). -/
def parseFuel (data : List Char) : Nat := 3 * data.length + 16

/-- `RESPParser::add_completed_command` (RESPParser.cpp lines 261-266):
only array values are enqueued as candidate commands. -/
def addCompletedCommand (completed : List RVal) (v : RVal) : List RVal :=
  match v with
  | .array _ => completed ++ [v]
  | _ => completed

/-- `RESPParser::get_commands` (RESPParser.cpp lines 78-92): drain the
completed values, keeping the non-empty commands. -/
def getCommands (completed : List RVal) : List (List (List Char)) :=
  (completed.map toCommand).filter (fun c => !c.isEmpty)

/-- The mutable fields of `RESPParser::ParseContext` that the code actually
uses (`state`, `remaining`, `current_value` and `value_stack` are declared
but never read or written by RESPParser.cpp). -/
structure PState where
  buffer : List Char
  position : Nat
  completed : List RVal

/-- A fresh parser (`ParseContext{}`). -/
def PState.init : PState := ⟨[], 0, []⟩

/-- The while-loop of `RESPParser::parse` (RESPParser.cpp lines 54-62):
repeatedly `try_parse_next`; a completed value is enqueued via
`add_completed_command`; `nullopt` breaks the loop; an exception escapes.
Each completed value consumes buffered bytes, so `data.length + 4` outer
iterations always suffice. -/
def parseLoop (data : List Char) : Nat → Nat → List RVal → Option Exn × Nat × List RVal
  | 0, pos, comp => (none, pos, comp)
  | fuel + 1, pos, comp =>
    match parseStep data (parseFuel data) (.next pos) with
    | .thrown e p => (some e, p, comp)
    | .incomplete p => (none, p, comp)
    | .value v p => parseLoop data fuel p (addCompletedCommand comp v)

/-- `RESPParser::parse` (RESPParser.cpp lines 45-72): append the chunk to
the buffer, greedily parse values, then discard all bytes before the
cursor (buffer compaction) and drain the completed commands.  When a C++
exception escapes (first component `some e`), compaction and draining do
not run: the context keeps the appended buffer, the cursor where the throw
happened, and the queued values. -/
def parse (st : PState) (data : List Char) :
    Option Exn × List (List (List Char)) × PState :=
  let buf := st.buffer ++ data
  match parseLoop buf (buf.length + 4) st.position st.completed with
  | (some e, p, comp) => (some e, [], ⟨buf, p, comp⟩)
  | (none, p, comp) => (none, getCommands comp, ⟨buf.drop p, 0, []⟩)

/-- RESP serialization of one bulk string, per the wire grammar of the
specification (`$LEN CRLF payload CRLF`). -/
def serializeBulk (s : List Char) : List Char :=
  '$' :: (Nat.repr s.length).data ++ '\r' :: '\n' :: s ++ ['\r', '\n']

/-- RESP serialization of one command: an array of bulk strings
(`*COUNT CRLF element…`). -/
def serializeCmd (c : List (List Char)) : List Char :=
  '*' :: (Nat.repr c.length).data ++ '\r' :: '\n' :: (c.map serializeBulk).flatten

/-- RESP serialization of a command sequence. -/
def serialize (cs : List (List (List Char))) : List Char :=
  (cs.map serializeCmd).flatten

/-- First chunk of the C1 failing input: a valid `PING` command cut two
bytes before its end. -/
def c1chunk1 : List Char := ("*1\r\n$4\r\nPING").toList

/-- Second chunk of the C1 failing input: the trailing CRLF. -/
def c1chunk2 : List Char := ("\r\n").toList

/-- C5 failing input: a bulk string whose length field is not a number. -/
def c5input : List Char := ("$abc\r\n").toList

/-- C9 byte-level inputs: well-formed RESP values that are not commands. -/
def c9simple : List Char := ("+OK\r\n").toList

/-- A top-level RESP error value. -/
def c9error : List Char := ("-ERR x\r\n").toList

/-- A top-level RESP integer value. -/
def c9integer : List Char := (":5\r\n").toList

/-- A top-level RESP bulk string. -/
def c9bulk : List Char := ("$3\r\nfoo\r\n").toList

/-- An empty RESP array. -/
def c9emptyArr : List Char := ("*0\r\n").toList

/-- An array containing a non-bulk-string element. -/
def c9mixedArr : List Char := ("*1\r\n:5\r\n").toList

/-- The shape of a completed value that `to_command`/`get_commands` drop:
anything that is not a non-empty array of bulk strings. -/
def isNonCommandShape (v : RVal) : Bool :=
  match v with
  | .array elems => elems.isEmpty || !(elems.all RVal.isBulk)
  | _ => true

/-- The commands contributed by a single completed value through
`add_completed_command` followed by `get_commands`. -/
def commandsFromValue (v : RVal) : List (List (List Char)) :=
  getCommands (addCompletedCommand [] v)

end RESP

namespace Cache

/-- `CacheItemMetrics` (CachePolicy.h lines 7-40): last-access tick, access
counters and the LFU frequency weight. -/
structure Metrics where
  lastAccess : Nat
  accessCount : Nat
  totalAccessCount : Nat
  freqWeightNum : Int
  freqWeightDen : Nat
deriving Repr, DecidableEq

/-- The `CacheItemMetrics` constructor: `last_access_time = now()`, zero
counts, weight 1. -/
def Metrics.init (now : Nat) : Metrics := ⟨now, 0, 0, 1, 1⟩

/-- `CacheItemMetrics::record_access`. -/
def Metrics.recordAccess (m : Metrics) (now : Nat) : Metrics :=
  ⟨now, m.accessCount + 1, m.totalAccessCount + 1,
   m.freqWeightNum, m.freqWeightDen⟩

/-- `AdaptiveCache::CacheItem` (AdaptiveCache.h lines 69-75). -/
structure Item where
  key : String
  value : String
  m : Metrics
deriving Repr, DecidableEq

/-- An eviction priority as computed by `CachePolicy::get_priority`
(a `double`): either a finite ratio `num / den` (`den` positive by
convention; only comparisons of these doubles matter) or the
`∞`/`double::max` top value assigned to expired items and to LFU items
with zero count. -/
inductive Prio where
  | inf
  | val (num : Int) (den : Nat)
deriving Repr, DecidableEq

/-- The strict comparator `a.second > b.second` used by the `std::sort`
call in `AdaptiveCache::evict_items`, by cross-multiplication. -/
def Prio.gtb : Prio → Prio → Bool
  | .inf, .inf => false
  | .inf, .val _ _ => true
  | .val _ _, .inf => false
  | .val an ad, .val bn bd => decide (bn * (ad : Int) < an * (bd : Int))

/-- The abstract `CachePolicy` interface (CachePolicy.h lines 43-83),
with its mutable internal state of type `σ` threaded explicitly and the
`steady_clock` samples passed as the current tick.  `isLRU` models the
`policy_->type() == CachePolicy::Type::LRU` tests in AdaptiveCache.cpp. -/
structure PolicySpec (σ : Type) where
  init : σ
  isLRU : Bool
  onAccess : σ → String → Nat → Metrics → Metrics × σ
  onAdd : σ → String → Nat → Metrics → Metrics × σ
  onEviction : σ → String → Metrics → σ
  shouldEvict : σ → String → Nat → Metrics → Bool
  priority : σ → String → Metrics → Prio

/-- `LRUPolicy` (CachePolicy.h lines 86-120): stateless; `on_access` and
`on_add` record the access; never expires; priority is the last-access
timestamp in milliseconds (here: the tick itself). -/
def lruPolicy : PolicySpec Unit where
  init := ()
  isLRU := true
  onAccess := fun s _ now m => (m.recordAccess now, s)
  onAdd := fun s _ now m => (m.recordAccess now, s)
  onEviction := fun s _ _ => s
  shouldEvict := fun _ _ _ _ => false
  priority := fun _ _ m => .val (m.lastAccess : Int) 1

/-- A non-negative `double` configuration constant, as the exact ratio
`num / den` (`den` positive by convention). -/
structure DRatio where
  num : Int
  den : Nat
deriving Repr, DecidableEq

/-- `AdaptiveCache::Options` (AdaptiveCache.h lines 23-66); the fields the
sequential model uses.  `cleanup_threshold` and `cleanup_target` default to
0.9 and 0.7. -/
structure Options where
  shardCount : Nat
  initialCapacity : Nat
  minCapacity : Nat
  maxCapacity : Nat
  cleanupThreshold : DRatio
  cleanupTarget : DRatio
deriving Repr

/-- The configured cache: options, the policy object, and the xxHash-based
key hash (`XXH32(key, 0)`), which is an external library and is therefore a
parameter of the model. -/
structure Ctx (σ : Type) where
  opts : Options
  pol : PolicySpec σ
  hash : String → Nat

/-- The mutable state of an `AdaptiveCache`: the per-shard item lists
(list front = `items.begin()`; the key→iterator map is represented by key
lookup in the list), the policy's internal state, the atomic counters, and
the logical clock. -/
structure CacheState (σ : Type) where
  shards : List (List Item)
  pol : σ
  capacity : Nat
  size : Nat
  hits : Nat
  misses : Nat
  evictions : Nat
  expirations : Nat
  tick : Nat

/-- A freshly constructed cache (AdaptiveCache.cpp lines 8-30). -/
def initState (ctx : Ctx σ) : CacheState σ :=
  ⟨List.replicate ctx.opts.shardCount [], ctx.pol.init,
    ctx.opts.initialCapacity, 0, 0, 0, 0, 0, 0⟩

/-- `AdaptiveCache::get_shard_index`: hash modulo shard count. -/
def shardIdx (ctx : Ctx σ) (k : String) : Nat :=
  ctx.hash k % ctx.opts.shardCount

/-- The item list of shard `i`. -/
def getShard (st : CacheState σ) (i : Nat) : List Item :=
  st.shards.getD i []

/-- Replace the item list of shard `i`. -/
def setShard (st : CacheState σ) (i : Nat) (sh : List Item) : CacheState σ :=
  { st with shards := st.shards.set i sh }

/-- `shard.item_map.find(key)`: the item of the shard with the given key
(first occurrence; the map mirrors the list, whose keys are distinct). -/
def findItem (k : String) : List Item → Option Item
  | [] => none
  | it :: rest => if it.key == k then some it else findItem k rest

/-- Unlink the (first) item with the given key from a shard list. -/
def eraseFirst (k : String) : List Item → List Item
  | [] => []
  | it :: rest => if it.key == k then rest else it :: eraseFirst k rest

/-- In-place update of the found item (`it->second->value = value` plus the
metrics write of `on_access`). -/
def replaceItem (k : String) (nit : Item) : List Item → List Item
  | [] => []
  | it :: rest => if it.key == k then nit :: rest else it :: replaceItem k nit rest

/-- `shard.items.splice(shard.items.begin(), shard.items, it)`: move the
found item to the front of the list. -/
def moveToFront (k : String) (sh : List Item) : List Item :=
  match findItem k sh with
  | none => sh
  | some it => it :: eraseFirst k sh

/-- The cache lookup relation used by the store-level proofs: the value
held for `k` in `k`'s home shard. -/
def cacheLookup (ctx : Ctx σ) (st : CacheState σ) (k : String) : Option String :=
  (findItem k (getShard st (shardIdx ctx k))).map Item.value

/-- The candidate list built by `AdaptiveCache::evict_items` (lines
338-353): every item of the shard with its priority, expired items
receiving the `+∞` priority. -/
def candidatesOf (ctx : Ctx σ) (pol : σ) (now : Nat) (sh : List Item) :
    List (String × Prio) :=
  sh.map (fun it =>
    (it.key, if ctx.pol.shouldEvict pol it.key now it.m then Prio.inf
             else ctx.pol.priority pol it.key it.m))

/-- Insertion step of the priority sort. -/
def insertByPrio (x : String × Prio) : List (String × Prio) → List (String × Prio)
  | [] => [x]
  | y :: ys => if Prio.gtb x.2 y.2 then x :: y :: ys else y :: insertByPrio x ys

/-- The `std::sort(.., a.second > b.second)` of `evict_items`: descending
by priority.  (`std::sort` is unstable, so any order among equal priorities
is a valid refinement; this insertion sort is one of them, and the claims
evaluated concretely have pairwise distinct priorities.) -/
def sortByPrioDesc (l : List (String × Prio)) : List (String × Prio) :=
  l.foldr insertByPrio []

/-- One iteration of the eviction loop of `evict_items` (lines 362-387):
look the key up; if still present, notify the policy, unlink it, decrement
the size and count the eviction. -/
def evictStep (ctx : Ctx σ) (i : Nat) (st : CacheState σ) (k : String) :
    CacheState σ :=
  match findItem k (getShard st i) with
  | none => st
  | some it =>
    let st2 := setShard { st with pol := ctx.pol.onEviction st.pol k it.m } i
      (eraseFirst k (getShard st i))
    { st2 with size := st2.size - 1, evictions := st2.evictions + 1 }

/-- `AdaptiveCache::evict_items` (AdaptiveCache.cpp lines 332-388). -/
def evictItems (ctx : Ctx σ) (st : CacheState σ) (i : Nat) (count : Nat) :
    CacheState σ :=
  if count = 0 then st
  else
    let cands := sortByPrioDesc (candidatesOf ctx st.pol st.tick (getShard st i))
    let toEvict := min count cands.length
    ((cands.take toEvict).map Prod.fst).foldl (evictStep ctx i) st

/-- One removal of `cleanup_expired` (lines 405-423): like an eviction but
without the `on_eviction` callback, counted as an expiration. -/
def cleanupStep (i : Nat) (st : CacheState σ) (k : String) : CacheState σ :=
  match findItem k (getShard st i) with
  | none => st
  | some _ =>
    let st2 := setShard st i (eraseFirst k (getShard st i))
    { st2 with size := st2.size - 1, expirations := st2.expirations + 1 }

/-- `AdaptiveCache::cleanup_expired` (AdaptiveCache.cpp lines 390-424). -/
def cleanupExpired (ctx : Ctx σ) (st : CacheState σ) (i : Nat) : CacheState σ :=
  let expired := ((getShard st i).filter
    (fun it => ctx.pol.shouldEvict st.pol it.key st.tick it.m)).map Item.key
  expired.foldl (cleanupStep i) st

/-- `static_cast<double>(size) / capacity > threshold`, decided by
cross-multiplication.  A zero capacity makes the C++ quotient `+∞` (the
comparison is true for positive size) or `NaN` (false). -/
def usageExceeds (size cap : Nat) (thr : DRatio) : Bool :=
  if cap = 0 then decide (0 < size)
  else decide (thr.num * (cap : Int) < (size : Int) * (thr.den : Int))

/-- `static_cast<size_t>(capacity * cleanup_target)`: the floor of the
exact product (these doubles are exact for the ratios in use). -/
def targetFloor (cap : Nat) (thr : DRatio) : Nat :=
  (((cap : Int) * thr.num).fdiv (thr.den : Int)).toNat

/-- `AdaptiveCache::calculate_items_to_evict` (AdaptiveCache.cpp lines
462-481). -/
def calculateItemsToEvict (ctx : Ctx σ) (st : CacheState σ) : Nat :=
  if st.capacity < st.size then st.size - st.capacity + 1
  else if usageExceeds st.size st.capacity ctx.opts.cleanupThreshold then
    let target := targetFloor st.capacity ctx.opts.cleanupTarget
    if target < st.size then st.size - target else 1
  else 1

/-- `AdaptiveCache::put` (AdaptiveCache.cpp lines 43-93).  An existing key
is updated in place (value write, `on_access`, LRU move-to-front) and the
function returns before any eviction or cleanup.  A new key first triggers
eviction from its own shard when the global size has reached capacity, is
inserted at the front with `on_add` applied to fresh metrics, increments
the size, and finally runs the expiration sweep when the usage ratio
exceeds the cleanup threshold. -/
def put (ctx : Ctx σ) (st0 : CacheState σ) (k v : String) : CacheState σ :=
  let now := st0.tick + 1
  let st := { st0 with tick := now }
  let i := shardIdx ctx k
  let sh := getShard st i
  match findItem k sh with
  | some it =>
    let acc := ctx.pol.onAccess st.pol k now it.m
    let sh2 := replaceItem k ⟨k, v, acc.1⟩ sh
    let sh3 := if ctx.pol.isLRU then moveToFront k sh2 else sh2
    setShard { st with pol := acc.2 } i sh3
  | none =>
    let st1 :=
      if st.capacity ≤ st.size then
        evictItems ctx st i (calculateItemsToEvict ctx st)
      else st
    let add := ctx.pol.onAdd st1.pol k now (Metrics.init now)
    let st2 := setShard { st1 with pol := add.2 } i (⟨k, v, add.1⟩ :: getShard st1 i)
    let st3 := { st2 with size := st2.size + 1 }
    if usageExceeds st3.size st3.capacity ctx.opts.cleanupThreshold then
      cleanupExpired ctx st3 i
    else st3

/-- The shard list written by the existing-key branch of `put` (value
overwrite, `on_access` metrics write, LRU move-to-front). -/
def putUpd (ctx : Ctx σ) (st : CacheState σ) (k v : String) (it : Item) :
    List Item :=
  let acc := ctx.pol.onAccess st.pol k (st.tick + 1) it.m
  let sh2 := replaceItem k ⟨k, v, acc.1⟩ (getShard st (shardIdx ctx k))
  if ctx.pol.isLRU then moveToFront k sh2 else sh2

/-- The state after the conditional eviction phase of the new-key branch
of `put`. -/
def putSt1 (ctx : Ctx σ) (st : CacheState σ) (k : String) : CacheState σ :=
  let stt := { st with tick := st.tick + 1 }
  if stt.capacity ≤ stt.size then
    evictItems ctx stt (shardIdx ctx k) (calculateItemsToEvict ctx stt)
  else stt

/-- The state after the insertion phase of the new-key branch of `put`. -/
def putSt3 (ctx : Ctx σ) (st : CacheState σ) (k v : String) : CacheState σ :=
  let st1 := putSt1 ctx st k
  let add := ctx.pol.onAdd st1.pol k (st.tick + 1) (Metrics.init (st.tick + 1))
  let st2 := setShard { st1 with pol := add.2 } (shardIdx ctx k)
    (⟨k, v, add.1⟩ :: getShard st1 (shardIdx ctx k))
  { st2 with size := st2.size + 1 }

/-- The whole new-key branch of `put`: conditional eviction, insertion at
the front, size increment, conditional expiration sweep. -/
def putNew (ctx : Ctx σ) (st : CacheState σ) (k v : String) : CacheState σ :=
  let st3 := putSt3 ctx st k v
  if usageExceeds st3.size st3.capacity ctx.opts.cleanupThreshold then
    cleanupExpired ctx st3 (shardIdx ctx k)
  else st3

/-- `AdaptiveCache::remove` (AdaptiveCache.cpp lines 155-187). -/
def remove (ctx : Ctx σ) (st : CacheState σ) (k : String) : Bool × CacheState σ :=
  let i := shardIdx ctx k
  let sh := getShard st i
  match findItem k sh with
  | none => (false, st)
  | some it =>
    let st2 := setShard { st with pol := ctx.pol.onEviction st.pol k it.m } i
      (eraseFirst k sh)
    (true, { st2 with size := st2.size - 1 })

/-- `AdaptiveCache::get` (AdaptiveCache.cpp lines 95-146).  A miss counts
a miss; a hit on an item the policy wants evicted removes it and counts an
expiration and a miss; otherwise `on_access` updates the metrics and, for
LRU, the item is re-looked-up under the write lock and moved to the front
before the hit is counted. -/
def get (ctx : Ctx σ) (st0 : CacheState σ) (k : String) :
    Option String × CacheState σ :=
  let now := st0.tick + 1
  let st := { st0 with tick := now }
  let i := shardIdx ctx k
  let sh := getShard st i
  match findItem k sh with
  | none => (none, { st with misses := st.misses + 1 })
  | some it =>
    if ctx.pol.shouldEvict st.pol k now it.m then
      let st2 := (remove ctx st k).2
      (none, { st2 with expirations := st2.expirations + 1,
                        misses := st2.misses + 1 })
    else
      let acc := ctx.pol.onAccess st.pol k now it.m
      let sh2 := replaceItem k ⟨k, it.value, acc.1⟩ sh
      let st2 := setShard { st with pol := acc.2 } i sh2
      if ctx.pol.isLRU then
        match findItem k (getShard st2 i) with
        | some it2 =>
          let st3 := setShard st2 i (moveToFront k (getShard st2 i))
          (some it2.value, { st3 with hits := st3.hits + 1 })
        | none => (none, { st2 with misses := st2.misses + 1 })
      else
        (some it.value, { st2 with hits := st2.hits + 1 })

/-- `AdaptiveCache::clear` (AdaptiveCache.cpp lines 189-207). -/
def clear (st : CacheState σ) : CacheState σ :=
  { st with shards := st.shards.map (fun _ => []), size := 0 }

/-- `AdaptiveCache::set_capacity` (AdaptiveCache.cpp lines 270-289): clamp
to `[min, max]`; when shrinking below the current size, request
`items_to_evict / shard_count + 1` evictions from successive shards,
deducting the requested (not the achieved) count from the remainder. -/
def setCapacity (ctx : Ctx σ) (st : CacheState σ) (n : Nat) : CacheState σ :=
  let newCap := max ctx.opts.minCapacity (min ctx.opts.maxCapacity n)
  let oldCap := st.capacity
  let st1 := { st with capacity := newCap }
  if newCap < oldCap ∧ newCap < st1.size then
    let itemsToEvict := st1.size - newCap
    let perShard := itemsToEvict / ctx.opts.shardCount + 1
    ((List.range ctx.opts.shardCount).foldl
      (fun (acc : CacheState σ × Nat) i =>
        if acc.2 = 0 then acc
        else
          let toEvict := min perShard acc.2
          (evictItems ctx acc.1 i toEvict, acc.2 - toEvict))
      (st1, itemsToEvict)).1
  else st1

/-- The cache operations named by the claims. -/
inductive COp where
  | put (k v : String)
  | get (k : String)
  | remove (k : String)
  | clear
  | setCapacity (n : Nat)

/-- Whether an operation is `set_capacity`. -/
def COp.isSetCapacity : COp → Bool
  | .setCapacity _ => true
  | _ => false

/-- Apply one cache operation. -/
def applyOp (ctx : Ctx σ) (st : CacheState σ) : COp → CacheState σ
  | .put k v => put ctx st k v
  | .get k => (get ctx st k).2
  | .remove k => (remove ctx st k).2
  | .clear => clear st
  | .setCapacity n => setCapacity ctx st n

/-- Run a sequence of cache operations from the freshly constructed
cache. -/
def runOps (ctx : Ctx σ) (ops : List COp) : CacheState σ :=
  ops.foldl (applyOp ctx) (initState ctx)

/-- The number of items actually stored across all shards. -/
def totalItems (shards : List (List Item)) : Nat :=
  (shards.map List.length).sum

/-- The number of non-empty shards. -/
def neCount (shards : List (List Item)) : Nat :=
  shards.countP (fun sh => !sh.isEmpty)

/-- The C3 counterexample configuration: 2 shards, initial capacity 8,
capacity clamp `[1, 100]`, default cleanup ratios, LRU, and a key set that
the (external) hash function places entirely in shard 1. -/
def c3ctx : Ctx Unit :=
  ⟨⟨2, 8, 1, 100, ⟨9, 10⟩, ⟨7, 10⟩⟩, lruPolicy, fun _ => 1⟩

/-- The C3 counterexample run: fill to capacity, then shrink the capacity
to 2.  `set_capacity` requests 4 of the 6 needed evictions from the empty
shard 0 and deducts them anyway, so only 2 items are evicted. -/
def c3ops : List COp :=
  [.put ("k0") ("v"), .put ("k1") ("v"), .put ("k2") ("v"), .put ("k3") ("v"),
   .put ("k4") ("v"), .put ("k5") ("v"), .put ("k6") ("v"), .put ("k7") ("v"),
   .setCapacity 2]

/-- The C4 configuration: a single shard, capacity 2, LRU, default cleanup
ratios. -/
def c4ctx : Ctx Unit :=
  ⟨⟨1, 2, 0, 100, ⟨9, 10⟩, ⟨7, 10⟩⟩, lruPolicy, fun _ => 0⟩

/-- The C4 run: insert three distinct keys in order with no reads. -/
def c4ops : List COp :=
  [.put ("a") ("1"), .put ("b") ("2"), .put ("c") ("3")]

/-- A small LRU context used by witnesses: one shard, capacity 4. -/
def wctx : Ctx Unit :=
  ⟨⟨1, 4, 1, 100, ⟨9, 10⟩, ⟨7, 10⟩⟩, lruPolicy, fun _ => 0⟩

/-- Witness state for C10: the witness cache after one insert. -/
def wstate1 : CacheState Unit := put wctx (initState wctx) ("a") ("1")

/-- The item stored by that insert. -/
def witem1 : Item := ⟨"a", "1", ⟨1, 1, 1, 1, 1⟩⟩

/-- The keys of a shard, in list order. -/
def keys (sh : List Item) : List String := sh.map Item.key

/-- The structural invariant of a cache state: the shard vector has the
configured length, each shard's keys are distinct (the key→iterator map
mirrors the list), the atomic size counter equals the number of stored
items, and the size respects the claimed bound through the number of
non-empty shards. -/
structure CInv (ctx : Ctx σ) (st : CacheState σ) : Prop where
  hlen : st.shards.length = ctx.opts.shardCount
  hnodup : ∀ sh ∈ st.shards, (keys sh).Nodup
  hsize : st.size = totalItems st.shards
  hbound : st.size ≤ st.capacity + neCount st.shards

/-- Entries of `b` include every entry of `a` (cache mutations other than
writes of a key only move or drop entries). -/
def lookupSub (ctx : Ctx σ) (a b : CacheState σ) : Prop :=
  ∀ j w, cacheLookup ctx a j = some w → cacheLookup ctx b j = some w

/-- The C3 witness operation sequence (no `set_capacity`). -/
def c3wops : List COp :=
  [.put ("a") ("1"), .get ("a"), .put ("b") ("2"), .remove ("a"), .clear,
   .put ("c") ("3")]

end Cache

namespace DataStore

/-- The configured store: the cache context plus the compression switch.
zlib's `compress`/`decompress` (DataStore.cpp lines 223-284) are an
external library and are parameters of the model. -/
structure Ctx (σ : Type) where
  cctx : Cache.Ctx σ
  enableCompression : Bool
  compress : String → String
  decompress : String → String

/-- The store state: the cache plus the sharded key/value map.  The
shard/bucket/sub-map decomposition routes every key to a fixed sub-map by
pure hash functions, so the aggregate of all sub-maps is a single map from
keys to stored values; operations on a key touch exactly its own entry. -/
structure State (σ : Type) where
  cache : Cache.CacheState σ
  store : String → Option String

/-- A freshly constructed store (empty sub-maps, fresh cache). -/
def initState (ctx : Ctx σ) : State σ :=
  ⟨Cache.initState ctx.cctx, fun _ => none⟩

/-- The value written to the sub-map by `DataStore::set`. -/
def encode (ctx : Ctx σ) (v : String) : String :=
  if ctx.enableCompression then ctx.compress v else v

/-- The value produced from a sub-map entry by `DataStore::get`. -/
def decode (ctx : Ctx σ) (sv : String) : String :=
  if ctx.enableCompression then ctx.decompress sv else sv

/-- `DataStore::set` (DataStore.cpp lines 63-101): update the cache with
the uncompressed value, then store the (possibly compressed) value in the
key's sub-map. -/
def set (ctx : Ctx σ) (st : State σ) (k v : String) : State σ :=
  ⟨Cache.put ctx.cctx st.cache k v,
   fun j => if j = k then some (encode ctx v) else st.store j⟩

/-- `DataStore::get` (DataStore.cpp lines 103-137): consult the cache
first; on a miss, read the sub-map, decompress if enabled, install the
value into the cache and return it. -/
def get (ctx : Ctx σ) (st : State σ) (k : String) : Option String × State σ :=
  match Cache.get ctx.cctx st.cache k with
  | (some w, c2) => (some w, { st with cache := c2 })
  | (none, c2) =>
    match st.store k with
    | none => (none, { st with cache := c2 })
    | some sv =>
      let v := decode ctx sv
      (some v, { st with cache := Cache.put ctx.cctx c2 k v })

/-- `DataStore::del` (DataStore.cpp lines 139-163): drop the key from the
cache, erase it from its sub-map, and report whether it was present. -/
def del (ctx : Ctx σ) (st : State σ) (k : String) : Bool × State σ :=
  let c2 := (Cache.remove ctx.cctx st.cache k).2
  ((st.store k).isSome,
   ⟨c2, fun j => if j = k then none else st.store j⟩)

/-- The store operations of claim C2. -/
inductive DSOp where
  | set (k v : String)
  | get (k : String)
  | del (k : String)

/-- Apply one store operation. -/
def applyOp (ctx : Ctx σ) (st : State σ) : DSOp → State σ
  | .set k v => set ctx st k v
  | .get k => (get ctx st k).2
  | .del k => (del ctx st k).2

/-- Run a sequence of store operations from a fresh store. -/
def runOps (ctx : Ctx σ) (ops : List DSOp) : State σ :=
  ops.foldl (applyOp ctx) (initState ctx)

/-- The reference semantics of the claim: the mapping determined by the
last completed `SET`/`DEL` per key (a `GET` changes nothing). -/
def specApply (M : String → Option String) : DSOp → String → Option String
  | .set k v => fun j => if j = k then some v else M j
  | .del k => fun j => if j = k then none else M j
  | .get _ => M

/-- The reference mapping after a sequence of operations. -/
def specStore (ops : List DSOp) : String → Option String :=
  ops.foldl specApply (fun _ => none)

/-- The witness store context: one cache shard, LRU, compression enabled
with the identity codec (which satisfies the round-trip hypothesis). -/
def wdctx : Ctx Unit := ⟨Cache.wctx, true, id, id⟩

/-- The witness operation sequence. -/
def wops : List DSOp :=
  [.set ("a") ("1"), .set ("b") ("2"), .get ("a"), .set ("a") ("3"),
   .del ("b"), .get ("b")]

/-- The store invariant tying a run of the model to the reference mapping
`M`: the sub-maps hold exactly the encoded reference values, every cache
entry agrees with the reference, and the cache is structurally sound. -/
structure DSInv (ctx : Ctx σ) (st : State σ) (M : String → Option String) : Prop where
  hstore : ∀ k, st.store k = (M k).map (encode ctx)
  hcache : ∀ k w, Cache.cacheLookup ctx.cctx st.cache k = some w → M k = some w
  hcinv : Cache.CInv ctx.cctx st.cache

end DataStore

namespace CommandHandler

/-- `CommandHandler::CommandStats` (CommandHandler.h lines 30-35);
`min_time` starts at `~0ull`.  The `uint64_t` counters are modelled modulo
`2^64`. -/
structure CommandStats where
  calls : Nat
  totalTime : Nat
  maxTime : Nat
  minTime : Nat
deriving Repr, DecidableEq

/-- Default-constructed `CommandStats`. -/
def CommandStats.initStats : CommandStats := ⟨0, 0, 0, 2 ^ 64 - 1⟩

/-- `CommandHandler::update_command_stats` on one entry. -/
def CommandStats.bump (s : CommandStats) (dur : Nat) : CommandStats :=
  ⟨(s.calls + 1) % 2 ^ 64, (s.totalTime + dur) % 2 ^ 64,
   max s.maxTime dur, min s.minTime dur⟩

/-- `cmd_stats_[cmd_name]` followed by the updates: update the entry,
inserting a default-constructed one if absent.  (The `unordered_map`
iteration order is unspecified; the model keeps insertion order, which the
claims do not depend on.) -/
def updateStatsList : List (String × CommandStats) → String → Nat →
    List (String × CommandStats)
  | [], name, dur => [(name, CommandStats.initStats.bump dur)]
  | (n, s) :: rest, name, dur =>
    if n = name then (n, s.bump dur) :: rest
    else (n, s) :: updateStatsList rest name dur

/-- The handler state: the store and the per-command statistics. -/
structure HState (σ : Type) where
  ds : DataStore.State σ
  stats : List (String × CommandStats)

/-- The handler context: the store context plus the rendering function for
the fixed-precision average line of INFO (floating-point formatting,
abstracted as a parameter `totalTime → calls → text`). -/
structure HCtx (σ : Type) where
  dctx : DataStore.Ctx σ
  fmtAvg : Nat → Nat → String

/-- `std::tolower` in the default locale, on ASCII. -/
def toLowerAscii (c : Char) : Char :=
  if 'A' ≤ c ∧ c ≤ 'Z' then Char.ofNat (c.toNat + 32) else c

/-- The lowercase conversion loop of `CommandHandler::handle` (lines
27-33). -/
def lowerStr (s : String) : String := String.mk (s.data.map toLowerAscii)

/-- The keys of `cmd_handlers_` (CommandHandler.cpp lines 13-18). -/
def supportedCommands : List String :=
  ["set", "get", "del", "mset", "mget", "info"]

/-- `CommandHandler::handle_set` (CommandHandler.cpp lines 72-78). -/
def handleSet (ctx : HCtx σ) (st : HState σ) (args : List String) :
    String × HState σ :=
  match args with
  | [_, k, v] => ("+OK\r\n", { st with ds := DataStore.set ctx.dctx st.ds k v })
  | _ => ("-ERR wrong number of arguments for 'set' command\r\n", st)

/-- `CommandHandler::handle_get` (CommandHandler.cpp lines 80-98). -/
def handleGet (ctx : HCtx σ) (st : HState σ) (args : List String) :
    String × HState σ :=
  match args with
  | [_, k] =>
    match DataStore.get ctx.dctx st.ds k with
    | (none, ds2) => ("$-1\r\n", { st with ds := ds2 })
    | (some v, ds2) =>
      ("$" ++ toString v.length ++ "\r\n" ++ v ++ "\r\n", { st with ds := ds2 })
  | _ => ("-ERR wrong number of arguments for 'get' command\r\n", st)

/-- `CommandHandler::handle_del` (CommandHandler.cpp lines 100-106). -/
def handleDel (ctx : HCtx σ) (st : HState σ) (args : List String) :
    String × HState σ :=
  match args with
  | [_, k] =>
    let r := DataStore.del ctx.dctx st.ds k
    (":" ++ (if r.1 then ("1") else ("0")) ++ "\r\n", { st with ds := r.2 })
  | _ => ("-ERR wrong number of arguments for 'del' command\r\n", st)

/-- The pairing loop of `handle_mset` (`args[i], args[i+1]` for odd `i`). -/
def pairsUp : List String → List (String × String)
  | k :: v :: rest => (k, v) :: pairsUp rest
  | _ => []

/-- `CommandHandler::handle_mset` (CommandHandler.cpp lines 108-123). -/
def handleMset (ctx : HCtx σ) (st : HState σ) (args : List String) :
    String × HState σ :=
  if args.length < 3 ∨ args.length % 2 ≠ 1 then
    ("-ERR wrong number of arguments for 'mset' command\r\n", st)
  else
    let ds2 := (pairsUp args.tail).foldl
      (fun d kv => DataStore.set ctx.dctx d kv.1 kv.2) st.ds
    ("+OK\r\n", { st with ds := ds2 })

/-- `CommandHandler::handle_mget` (CommandHandler.cpp lines 125-154). -/
def handleMget (ctx : HCtx σ) (st : HState σ) (args : List String) :
    String × HState σ :=
  if args.length < 2 then
    ("-ERR wrong number of arguments for 'mget' command\r\n", st)
  else
    let keys := args.tail
    let r := keys.foldl
      (fun (acc : String × DataStore.State σ) k =>
        match DataStore.get ctx.dctx acc.2 k with
        | (none, d2) => (acc.1 ++ "$-1\r\n", d2)
        | (some v, d2) =>
          (acc.1 ++ "$" ++ toString v.length ++ "\r\n" ++ v ++ "\r\n", d2))
      ("*" ++ toString keys.length ++ "\r\n", st.ds)
    (r.1, { st with ds := r.2 })

/-- The per-command body lines of INFO (CommandHandler.cpp lines 160-170). -/
def statsLines (fmtAvg : Nat → Nat → String) :
    List (String × CommandStats) → String
  | [] => ""
  | (cmd, s) :: rest =>
    cmd ++ "_calls:" ++ toString s.calls ++ "\r\n" ++
    (if 0 < s.calls then
      cmd ++ "_avg_time:" ++ fmtAvg s.totalTime s.calls ++ "us\r\n" ++
      cmd ++ "_min_time:" ++ toString s.minTime ++ "us\r\n" ++
      cmd ++ "_max_time:" ++ toString s.maxTime ++ "us\r\n"
     else "") ++ statsLines fmtAvg rest

/-- `CommandHandler::handle_info` (CommandHandler.cpp lines 156-174): the
reply always begins with the estimated bulk length `$1024 CRLF`, whatever
the body turns out to be. -/
def handleInfo (ctx : HCtx σ) (st : HState σ) (_args : List String) :
    String × HState σ :=
  ("$" ++ toString 1024 ++ "\r\n" ++ "# Commands\r\n" ++
    statsLines ctx.fmtAvg st.stats ++ "\r\n", st)

/-- `CommandHandler::handle` (CommandHandler.cpp lines 21-59): reject the
empty command; lowercase the name; unknown names get the RESP error reply;
otherwise dispatch and record the measured duration (`dur`, a wall-clock
input) in the statistics. -/
def handle (ctx : HCtx σ) (st : HState σ) (dur : Nat) (cmd : List String) :
    String × HState σ :=
  match cmd with
  | [] => ("-ERR empty command\r\n", st)
  | name0 :: _ =>
    let name := lowerStr name0
    if name ∈ supportedCommands then
      let r :=
        if name = "set" then handleSet ctx st cmd
        else if name = "get" then handleGet ctx st cmd
        else if name = "del" then handleDel ctx st cmd
        else if name = "mset" then handleMset ctx st cmd
        else if name = "mget" then handleMget ctx st cmd
        else handleInfo ctx st cmd
      (r.1, { r.2 with stats := updateStatsList r.2.stats name dur })
    else ("-ERR unknown command '" ++ name ++ "'\r\n", st)

/-- The witness handler context. -/
def whctx : HCtx Unit := ⟨DataStore.wdctx, fun _ _ => ""⟩

/-- A fresh handler state over the witness context. -/
def whstate : HState Unit := ⟨DataStore.initState DataStore.wdctx, []⟩

end CommandHandler

namespace RedisServer

/-- The connection-accounting state of `RedisServer`: the admitted client
fds (`clients_`, all shards merged) and the cumulative
`total_connections_` counter. -/
structure SState where
  clients : List Nat
  totalConnections : Nat
deriving Repr, DecidableEq

/-- `RedisServer::accept_new_connections` (RedisServer.cpp lines 320-371):
accept pending connections until `max_accept_per_round` or `EAGAIN`,
counting each, then register every accepted socket (`epoll_ctl` assumed to
succeed) and add it to the client table via `add_client`.  No connection
count is consulted and no accepted socket is closed: the server's `Config`
has no `max_connections` field at all. -/
def acceptNewConnections (maxAcceptPerRound : Nat) (pending : List Nat)
    (st : SState) : SState :=
  let accepted := pending.take maxAcceptPerRound
  ⟨st.clients ++ accepted, st.totalConnections + accepted.length⟩

end RedisServer

-- ===================== THEOREMS =====================

namespace Cache

theorem findItem_key (k : String) :
    ∀ (sh : List Item) (it : Item), findItem k sh = some it → it.key = k := by
  intro sh
  induction sh with
  | nil => intro it h; cases h
  | cons a rest ih =>
    intro it h
    cases ha : a.key == k with
    | true =>
      have h2 : a = it := by simpa [findItem, ha] using h
      rw [← h2]
      exact beq_iff_eq.mp ha
    | false =>
      have h2 : findItem k rest = some it := by simpa [findItem, ha] using h
      exact ih it h2

theorem getD_set_ne {α : Type} (d : α) :
    ∀ (l : List α) (i j : Nat) (x : α), i ≠ j →
      (l.set i x).getD j d = l.getD j d := by
  intro l
  induction l with
  | nil => intro i j x _; rfl
  | cons a rest ih =>
    intro i j x hij
    cases i with
    | zero =>
      cases j with
      | zero => exact absurd rfl hij
      | succ j2 => rfl
    | succ i2 =>
      cases j with
      | zero => rfl
      | succ j2 => exact ih i2 j2 x (fun he => hij (by rw [he]))

theorem getD_set_self {α : Type} (d : α) :
    ∀ (l : List α) (i : Nat) (x : α), i < l.length →
      (l.set i x).getD i d = x := by
  intro l
  induction l with
  | nil => intro i x h; cases h
  | cons a rest ih =>
    intro i x h
    cases i with
    | zero => rfl
    | succ i2 => exact ih i2 x (Nat.lt_of_succ_lt_succ h)

theorem getD_ne_nil_lt {α : Type} :
    ∀ (l : List (List α)) (i : Nat), l.getD i [] ≠ [] → i < l.length := by
  intro l
  induction l with
  | nil => intro i h; exact absurd rfl h
  | cons a rest ih =>
    intro i h
    cases i with
    | zero => exact Nat.succ_pos _
    | succ i2 => exact Nat.succ_lt_succ (ih i2 h)

theorem findItem_replaceItem_self (k : String) (nit : Item) (hk : nit.key = k) :
    ∀ (sh : List Item) (it : Item), findItem k sh = some it →
      findItem k (replaceItem k nit sh) = some nit := by
  intro sh
  induction sh with
  | nil => intro it h; cases h
  | cons a rest ih =>
    intro it h
    cases ha : a.key == k with
    | true => simp [replaceItem, ha, findItem, beq_iff_eq.mpr hk]
    | false =>
      have h2 : findItem k rest = some it := by simpa [findItem, ha] using h
      simp [replaceItem, ha, findItem, ih it h2]

theorem findItem_replaceItem_ne (k j : String) (nit : Item) (hk : nit.key = k)
    (hj : j ≠ k) :
    ∀ (sh : List Item), findItem j (replaceItem k nit sh) = findItem j sh := by
  intro sh
  have hkj : ¬k = j := fun he => hj he.symm
  induction sh with
  | nil => rfl
  | cons a rest ih =>
    cases ha : a.key == k with
    | true =>
      have hak : a.key = k := beq_iff_eq.mp ha
      have haj : (a.key == j) = false := by
        rw [hak]; exact beq_eq_false_iff_ne.mpr hkj
      have hnj : (nit.key == j) = false := by
        rw [hk]; exact beq_eq_false_iff_ne.mpr hkj
      simp [replaceItem, ha, findItem, haj, hnj]
    | false =>
      simp [replaceItem, ha, findItem, ih]

theorem findItem_eraseFirst_ne (k j : String) (hj : j ≠ k) :
    ∀ (sh : List Item), findItem j (eraseFirst k sh) = findItem j sh := by
  intro sh
  have hkj : ¬k = j := fun he => hj he.symm
  induction sh with
  | nil => rfl
  | cons a rest ih =>
    cases ha : a.key == k with
    | true =>
      have hak : a.key = k := beq_iff_eq.mp ha
      have haj : (a.key == j) = false := by
        rw [hak]; exact beq_eq_false_iff_ne.mpr hkj
      simp [eraseFirst, ha, findItem, haj]
    | false =>
      simp [eraseFirst, ha, findItem, ih]

theorem findItem_moveToFront (k j : String) (sh : List Item) :
    findItem j (moveToFront k sh) = findItem j sh := by
  unfold moveToFront
  cases hf : findItem k sh with
  | none => rfl
  | some it =>
    have hkey : it.key = k := findItem_key k sh it hf
    by_cases hj : j = k
    · subst hj
      simp [findItem, beq_iff_eq.mpr hkey, hf]
    · have hij : (it.key == j) = false := by
        rw [hkey]; exact beq_eq_false_iff_ne.mpr (fun he => hj he.symm)
      simp [findItem, hij, findItem_eraseFirst_ne k j hj sh]

end Cache

/-- C1: refutation of the round-trip claim at a concrete chunking.  The two
chunks partition the serialization of the single command `PING`, yet the
two successive `parse` calls on one parser emit no command at all: the
failed bulk-string attempt of the first call leaves the cursor past the
`$4 CRLF` header (not at the start of the value), and compaction then
discards those header bytes. -/
theorem c1_chunked_parse_loses_command :
    RESP.c1chunk1 ++ RESP.c1chunk2 = RESP.serialize [[("PING").toList]] ∧
    (RESP.parse RESP.PState.init RESP.c1chunk1).1 = none ∧
    (RESP.parse RESP.PState.init RESP.c1chunk1).2.1 = [] ∧
    (RESP.parse (RESP.parse RESP.PState.init RESP.c1chunk1).2.2 RESP.c1chunk2).1 = none ∧
    (RESP.parse (RESP.parse RESP.PState.init RESP.c1chunk1).2.2 RESP.c1chunk2).2.1 = [] ∧
    (RESP.parse RESP.PState.init (RESP.serialize [[("PING").toList]])).2.1
      = [[("PING").toList]] := by
  refine ⟨by decide, by decide, by decide, by decide, by decide, by decide⟩

/-- C5: on the structurally invalid input `$abc CRLF`, `parse` raises
`std::invalid_argument` out of `std::stoi`; the parser is not reset (the
appended buffer and the advanced cursor survive) and no protocol-error
reply is produced.  On merely incomplete inputs (`$4 CRLF PI` and
`*2 CRLF $3 CRLF GE`), `parse` raises nothing and returns no commands. -/
theorem c5_unparseable_length_throws :
    (RESP.parse RESP.PState.init RESP.c5input).1 = some RESP.Exn.invalidArgument ∧
    (RESP.parse RESP.PState.init RESP.c5input).2.1 = [] ∧
    (RESP.parse RESP.PState.init RESP.c5input).2.2.buffer = RESP.c5input ∧
    (RESP.parse RESP.PState.init RESP.c5input).2.2.position = 1 ∧
    (RESP.parse RESP.PState.init (("$4\r\nPI").toList)).1 = none ∧
    (RESP.parse RESP.PState.init (("$4\r\nPI").toList)).2.1 = [] ∧
    (RESP.parse RESP.PState.init (("*2\r\n$3\r\nGE").toList)).1 = none ∧
    (RESP.parse RESP.PState.init (("*2\r\n$3\r\nGE").toList)).2.1 = [] := by
  refine ⟨by decide, by decide, by decide, by decide, by decide, by decide, by decide, by decide⟩

/-- C9: completed RESP values that are not non-empty arrays of bulk
strings are silently dropped: the `add_completed_command` /
`get_commands` pipeline contributes no command for them, exactly the
non-empty all-bulk arrays are emitted, and at the byte level a top-level
simple string, error, integer, bulk string, empty array and an array with
a non-bulk element are each consumed in full with no command and no
exception. -/
theorem c9_non_commands_silently_dropped :
    (∀ v : RESP.RVal, RESP.isNonCommandShape v = true →
      RESP.commandsFromValue v = []) ∧
    (∀ v : RESP.RVal, RESP.isNonCommandShape v = false →
      RESP.commandsFromValue v = [RESP.toCommand v] ∧ RESP.toCommand v ≠ []) ∧
    ((RESP.parse RESP.PState.init RESP.c9simple).1 = none ∧
      (RESP.parse RESP.PState.init RESP.c9simple).2.1 = [] ∧
      (RESP.parse RESP.PState.init RESP.c9simple).2.2.buffer = []) ∧
    ((RESP.parse RESP.PState.init RESP.c9error).1 = none ∧
      (RESP.parse RESP.PState.init RESP.c9error).2.1 = [] ∧
      (RESP.parse RESP.PState.init RESP.c9error).2.2.buffer = []) ∧
    ((RESP.parse RESP.PState.init RESP.c9integer).1 = none ∧
      (RESP.parse RESP.PState.init RESP.c9integer).2.1 = [] ∧
      (RESP.parse RESP.PState.init RESP.c9integer).2.2.buffer = []) ∧
    ((RESP.parse RESP.PState.init RESP.c9bulk).1 = none ∧
      (RESP.parse RESP.PState.init RESP.c9bulk).2.1 = [] ∧
      (RESP.parse RESP.PState.init RESP.c9bulk).2.2.buffer = []) ∧
    ((RESP.parse RESP.PState.init RESP.c9emptyArr).1 = none ∧
      (RESP.parse RESP.PState.init RESP.c9emptyArr).2.1 = [] ∧
      (RESP.parse RESP.PState.init RESP.c9emptyArr).2.2.buffer = []) ∧
    ((RESP.parse RESP.PState.init RESP.c9mixedArr).1 = none ∧
      (RESP.parse RESP.PState.init RESP.c9mixedArr).2.1 = [] ∧
      (RESP.parse RESP.PState.init RESP.c9mixedArr).2.2.buffer = []) := by
  refine ⟨?_, ?_, by decide, by decide, by decide, by decide, by decide, by decide⟩
  · intro v h
    match v with
    | .simple s => rfl
    | .error s => rfl
    | .integer s => rfl
    | .bulk s => rfl
    | .array es =>
      simp only [RESP.isNonCommandShape, Bool.or_eq_true] at h
      rcases h with h | h
      · have hes : es = [] := by
          cases es with
          | nil => rfl
          | cons a t => simp [List.isEmpty] at h
        subst hes
        rfl
      · have hall : es.all RESP.RVal.isBulk = false := by
          cases hh : es.all RESP.RVal.isBulk with
          | false => rfl
          | true => rw [hh] at h; simp at h
        simp [RESP.commandsFromValue, RESP.addCompletedCommand, RESP.getCommands,
          RESP.toCommand, hall]
  · intro v h
    match v with
    | .simple s => simp [RESP.isNonCommandShape] at h
    | .error s => simp [RESP.isNonCommandShape] at h
    | .integer s => simp [RESP.isNonCommandShape] at h
    | .bulk s => simp [RESP.isNonCommandShape] at h
    | .array es =>
      simp only [RESP.isNonCommandShape, Bool.or_eq_false_iff] at h
      obtain ⟨hne, hall⟩ := h
      have hall2 : es.all RESP.RVal.isBulk = true := by
        cases hh : es.all RESP.RVal.isBulk with
        | true => rfl
        | false => rw [hh] at hall; exact absurd hall (by decide)
      have hcmd : RESP.toCommand (RESP.RVal.array es)
          = es.map RESP.RVal.bulkStr := by
        simp [RESP.toCommand, hall2]
      constructor
      · simp only [RESP.commandsFromValue, RESP.addCompletedCommand, RESP.getCommands,
          List.map, List.filter, hcmd]
        cases es with
        | nil => simp [List.isEmpty] at hne
        | cons a t => simp
      · rw [hcmd]
        cases es with
        | nil => simp [List.isEmpty] at hne
        | cons a t => simp

/-- Witness for the hypothesis-bearing conjuncts of the C9 theorem:
a concrete non-command value is dropped and a concrete command value is
emitted. -/
theorem c9_non_commands_silently_dropped_witness :
    RESP.commandsFromValue (RESP.RVal.integer (("5").toList)) = [] ∧
    RESP.commandsFromValue (RESP.RVal.array [RESP.RVal.bulk (("GET").toList)])
      = [[("GET").toList]] := by
  constructor
  · exact c9_non_commands_silently_dropped.1 _ (by decide)
  · have h := (c9_non_commands_silently_dropped.2.1
      (RESP.RVal.array [RESP.RVal.bulk (("GET").toList)]) (by decide)).1
    exact h.trans (by decide)

/-- C3: counterexample to the size bound as claimed.  With 2 shards,
capacity clamp `[1,100]` and all keys hashed (by the external hash) to
shard 1, filling the cache to 8 items and then calling `set_capacity 2`
leaves 6 items at capacity 2: `set_capacity` requests 4 of the 6 needed
evictions from the empty shard 0 and deducts the requested (not achieved)
count from the remainder, so only 2 items are evicted and
`size = 6 > capacity + shard_count = 4`. -/
theorem c3_size_bound_violated_by_setCapacity :
    Cache.c3ctx.opts.shardCount = 2 ∧
    (Cache.runOps Cache.c3ctx Cache.c3ops).capacity = 2 ∧
    (Cache.runOps Cache.c3ctx Cache.c3ops).size = 6 ∧
    ¬((Cache.runOps Cache.c3ctx Cache.c3ops).size ≤
      (Cache.runOps Cache.c3ctx Cache.c3ops).capacity +
        Cache.c3ctx.opts.shardCount) := by
  refine ⟨rfl, by decide, by decide, by decide⟩

/-- C4: with capacity `N = 2`, a single LRU shard and three distinct keys
`a, b, c` inserted in order with no intervening reads, the key evicted at
the third insert is `k_2 = "b"` (the most recently used), not `k_1 = "a"`:
`evict_items` sorts candidates by priority descending and
`LRUPolicy::get_priority` returns the raw last-access timestamp, so the
newest item sorts first and is evicted. -/
theorem c4_lru_pressure_evicts_newest :
    ((Cache.runOps Cache.c4ctx Cache.c4ops).shards.map
      (fun sh => sh.map Cache.Item.key)) = [[("c"), ("a")]] ∧
    (Cache.runOps Cache.c4ctx Cache.c4ops).evictions = 1 ∧
    Cache.findItem ("b") (Cache.getShard (Cache.runOps Cache.c4ctx Cache.c4ops) 0)
      = none ∧
    (Cache.findItem ("a")
      (Cache.getShard (Cache.runOps Cache.c4ctx Cache.c4ops) 0)).isSome = true := by
  refine ⟨by decide, by decide, by decide, by decide⟩

/-- C7: counterexample to the accept-time limit.  With `max_connections`
equal to 1 and one connection already admitted (so the current total is at
the limit), a newly pending socket is still admitted rather than closed —
`accept_new_connections` never consults any connection limit. -/
theorem c7_limit_not_enforced_at_accept :
    1 ≤ ([5] : List Nat).length ∧
    (RedisServer.acceptNewConnections 128 [7] ⟨[5], 1⟩).clients = [5, 7] ∧
    (RedisServer.acceptNewConnections 128 [7] ⟨[5], 1⟩).clients.length = 2 := by
  refine ⟨by decide, by decide, by decide⟩

/-- C7 (amended): every accept round admits all pending connections up to
`max_accept_per_round`, independently of how many connections exist; no
accepted socket is closed for exceeding a limit (the server `Config` has
no `max_connections` field). -/
theorem c7_accept_admits_up_to_batch :
    ∀ (maxAcceptPerRound : Nat) (pending : List Nat) (st : RedisServer.SState),
      (RedisServer.acceptNewConnections maxAcceptPerRound pending st).clients
        = st.clients ++ pending.take maxAcceptPerRound ∧
      (RedisServer.acceptNewConnections maxAcceptPerRound pending st).totalConnections
        = st.totalConnections + (pending.take maxAcceptPerRound).length := by
  intro m p st
  exact ⟨rfl, rfl⟩

/-- C10: a `put` on a key already present is a pure overwrite: the size
counter, the capacity and the eviction/expiration counters are unchanged,
the key now maps to the new value, every other item (in this and every
other shard) is untouched, and under LRU the updated item sits at the
front of its shard's recency list.  In particular no eviction and no
expiration sweep runs, even when `size ≥ capacity`. -/
theorem c10_put_existing_is_pure_overwrite :
    ∀ (σ : Type) (ctx : Cache.Ctx σ) (st : Cache.CacheState σ) (k v : String)
      (it : Cache.Item),
      Cache.findItem k (Cache.getShard st (Cache.shardIdx ctx k)) = some it →
      ((Cache.put ctx st k v).size = st.size ∧
       (Cache.put ctx st k v).capacity = st.capacity ∧
       (Cache.put ctx st k v).evictions = st.evictions ∧
       (Cache.put ctx st k v).expirations = st.expirations ∧
       Cache.cacheLookup ctx (Cache.put ctx st k v) k = some v ∧
       (∀ j, j ≠ k →
         Cache.findItem j (Cache.getShard (Cache.put ctx st k v) (Cache.shardIdx ctx j))
           = Cache.findItem j (Cache.getShard st (Cache.shardIdx ctx j))) ∧
       (ctx.pol.isLRU = true →
         (Cache.getShard (Cache.put ctx st k v) (Cache.shardIdx ctx k)).head?
           = some ⟨k, v, (ctx.pol.onAccess st.pol k (st.tick + 1) it.m).1⟩)) := by
  intro σ ctx st k v it hf
  have hne : Cache.getShard st (Cache.shardIdx ctx k) ≠ [] := by
    intro he
    rw [he] at hf
    cases hf
  have hlt : Cache.shardIdx ctx k < st.shards.length :=
    Cache.getD_ne_nil_lt st.shards _ hne
  have hput : Cache.put ctx st k v
      = Cache.setShard
          { st with
              tick := st.tick + 1
              pol := (ctx.pol.onAccess st.pol k (st.tick + 1) it.m).2 }
          (Cache.shardIdx ctx k)
          (if ctx.pol.isLRU then
            Cache.moveToFront k (Cache.replaceItem k
              ⟨k, v, (ctx.pol.onAccess st.pol k (st.tick + 1) it.m).1⟩
              (Cache.getShard st (Cache.shardIdx ctx k)))
           else Cache.replaceItem k
              ⟨k, v, (ctx.pol.onAccess st.pol k (st.tick + 1) it.m).1⟩
              (Cache.getShard st (Cache.shardIdx ctx k))) := by
    unfold Cache.put
    dsimp only []
    rw [show Cache.findItem k
        (Cache.getShard { st with tick := st.tick + 1 } (Cache.shardIdx ctx k))
        = some it from hf]
    rfl
  have hrepl : Cache.findItem k
      (Cache.replaceItem k
        ⟨k, v, (ctx.pol.onAccess st.pol k (st.tick + 1) it.m).1⟩
        (Cache.getShard st (Cache.shardIdx ctx k)))
      = some ⟨k, v, (ctx.pol.onAccess st.pol k (st.tick + 1) it.m).1⟩ :=
    Cache.findItem_replaceItem_self k _ rfl _ it hf
  have hself : Cache.getShard (Cache.put ctx st k v) (Cache.shardIdx ctx k)
      = (if ctx.pol.isLRU then
          Cache.moveToFront k (Cache.replaceItem k
            ⟨k, v, (ctx.pol.onAccess st.pol k (st.tick + 1) it.m).1⟩
            (Cache.getShard st (Cache.shardIdx ctx k)))
         else Cache.replaceItem k
            ⟨k, v, (ctx.pol.onAccess st.pol k (st.tick + 1) it.m).1⟩
            (Cache.getShard st (Cache.shardIdx ctx k))) := by
    rw [hput]
    exact Cache.getD_set_self [] st.shards _ _ hlt
  refine ⟨by rw [hput]; rfl, by rw [hput]; rfl, by rw [hput]; rfl,
    by rw [hput]; rfl, ?_, ?_, ?_⟩
  · unfold Cache.cacheLookup
    rw [hself]
    cases hLRU : ctx.pol.isLRU with
    | true =>
      rw [if_pos rfl, Cache.findItem_moveToFront, hrepl]
      rfl
    | false =>
      rw [if_neg (by simp), hrepl]
      rfl
  · intro j hjk
    by_cases hidx : Cache.shardIdx ctx j = Cache.shardIdx ctx k
    · rw [hidx, hself]
      cases hLRU : ctx.pol.isLRU with
      | true =>
        rw [if_pos rfl, Cache.findItem_moveToFront,
          Cache.findItem_replaceItem_ne k j _ rfl hjk]
      | false =>
        rw [if_neg (by simp),
          Cache.findItem_replaceItem_ne k j _ rfl hjk]
    · rw [hput]
      unfold Cache.setShard Cache.getShard
      rw [Cache.getD_set_ne [] st.shards _ _ _ (fun he => hidx he.symm)]
  · intro hLRU
    rw [hself, if_pos hLRU]
    unfold Cache.moveToFront
    rw [hrepl]
    rfl

/-- Witness for C10 at a concrete state: overwriting the single stored key
keeps the size and rebinds the key to the new value. -/
theorem c10_put_existing_witness :
    (Cache.put Cache.wctx Cache.wstate1 ("a") ("2")).size = Cache.wstate1.size ∧
    Cache.cacheLookup Cache.wctx (Cache.put Cache.wctx Cache.wstate1 ("a") ("2")) ("a")
      = some ("2") := by
  have h := c10_put_existing_is_pure_overwrite Unit Cache.wctx Cache.wstate1
    ("a") ("2") Cache.witem1 (by decide)
  exact ⟨h.1, h.2.2.2.2.1⟩

/-- C8: every reply of the INFO command starts with the bulk-string header
`$1024 CRLF`, whatever the statistics and however the
floating-point average is rendered. -/
theorem c8_info_reply_fixed_header :
    ∀ (σ : Type) (ctx : CommandHandler.HCtx σ) (st : CommandHandler.HState σ)
      (dur : Nat) (name : String) (rest : List String),
      CommandHandler.lowerStr name = "info" →
      ("$1024\r\n").data <+: ((CommandHandler.handle ctx st dur (name :: rest)).1).data := by
  intro σ ctx st dur name rest h
  have hh : (CommandHandler.handle ctx st dur (name :: rest)).1
      = "$" ++ toString 1024 ++ "\r\n" ++ "# Commands\r\n" ++
        CommandHandler.statsLines ctx.fmtAvg st.stats ++ "\r\n" := by
    simp only [CommandHandler.handle, h]
    rfl
  rw [hh]
  refine ⟨("# Commands\r\n").data ++
    (CommandHandler.statsLines ctx.fmtAvg st.stats).data ++ ("\r\n").data, ?_⟩
  simp only [String.data_append]
  rw [show (toString (1024 : Nat)).data = ['1', '0', '2', '4'] from by decide]
  simp

/-- Witness for C8 at a concrete state. -/
theorem c8_info_reply_fixed_header_witness :
    ("$1024\r\n").data <+:
      ((CommandHandler.handle CommandHandler.whctx CommandHandler.whstate 0
        [("INFO")]).1).data :=
  c8_info_reply_fixed_header Unit CommandHandler.whctx CommandHandler.whstate 0
    ("INFO") [] (by decide)

/-- C6: dispatch error replies.  A command whose lowercased name is not
among set/get/del/mset/mget/info gets exactly the unknown-command error
and leaves the whole handler state unchanged; each supported command with
a wrong argument count gets exactly the wrong-number-of-arguments error
and leaves the store unchanged. -/
theorem c6_dispatch_error_replies :
    (∀ (σ : Type) (ctx : CommandHandler.HCtx σ) (st : CommandHandler.HState σ)
       (dur : Nat) (name : String) (rest : List String),
       CommandHandler.lowerStr name ∉ CommandHandler.supportedCommands →
       (CommandHandler.handle ctx st dur (name :: rest)).1
           = "-ERR unknown command '" ++ CommandHandler.lowerStr name ++ "'\r\n" ∧
         (CommandHandler.handle ctx st dur (name :: rest)).2 = st) ∧
    (∀ (σ : Type) (ctx : CommandHandler.HCtx σ) (st : CommandHandler.HState σ)
       (dur : Nat) (name : String) (rest : List String),
       CommandHandler.lowerStr name = "set" → rest.length ≠ 2 →
       (CommandHandler.handle ctx st dur (name :: rest)).1
           = "-ERR wrong number of arguments for 'set' command\r\n" ∧
         (CommandHandler.handle ctx st dur (name :: rest)).2.ds = st.ds) ∧
    (∀ (σ : Type) (ctx : CommandHandler.HCtx σ) (st : CommandHandler.HState σ)
       (dur : Nat) (name : String) (rest : List String),
       CommandHandler.lowerStr name = "get" → rest.length ≠ 1 →
       (CommandHandler.handle ctx st dur (name :: rest)).1
           = "-ERR wrong number of arguments for 'get' command\r\n" ∧
         (CommandHandler.handle ctx st dur (name :: rest)).2.ds = st.ds) ∧
    (∀ (σ : Type) (ctx : CommandHandler.HCtx σ) (st : CommandHandler.HState σ)
       (dur : Nat) (name : String) (rest : List String),
       CommandHandler.lowerStr name = "del" → rest.length ≠ 1 →
       (CommandHandler.handle ctx st dur (name :: rest)).1
           = "-ERR wrong number of arguments for 'del' command\r\n" ∧
         (CommandHandler.handle ctx st dur (name :: rest)).2.ds = st.ds) ∧
    (∀ (σ : Type) (ctx : CommandHandler.HCtx σ) (st : CommandHandler.HState σ)
       (dur : Nat) (name : String) (rest : List String),
       CommandHandler.lowerStr name = "mset" →
       (rest.length = 0 ∨ rest.length % 2 = 1) →
       (CommandHandler.handle ctx st dur (name :: rest)).1
           = "-ERR wrong number of arguments for 'mset' command\r\n" ∧
         (CommandHandler.handle ctx st dur (name :: rest)).2.ds = st.ds) ∧
    (∀ (σ : Type) (ctx : CommandHandler.HCtx σ) (st : CommandHandler.HState σ)
       (dur : Nat) (name : String) (rest : List String),
       CommandHandler.lowerStr name = "mget" → rest.length = 0 →
       (CommandHandler.handle ctx st dur (name :: rest)).1
           = "-ERR wrong number of arguments for 'mget' command\r\n" ∧
         (CommandHandler.handle ctx st dur (name :: rest)).2.ds = st.ds) := by
  refine ⟨?_, ?_, ?_, ?_, ?_, ?_⟩
  · intro σ ctx st dur name rest h
    have hh : CommandHandler.handle ctx st dur (name :: rest)
        = ("-ERR unknown command '" ++ CommandHandler.lowerStr name ++ "'\r\n", st) := by
      simp only [CommandHandler.handle]
      rw [if_neg h]
    rw [hh]
    exact ⟨rfl, rfl⟩
  · intro σ ctx st dur name rest h hlen
    have hh : CommandHandler.handle ctx st dur (name :: rest)
        = ((CommandHandler.handleSet ctx st (name :: rest)).1,
           { (CommandHandler.handleSet ctx st (name :: rest)).2 with
              stats := CommandHandler.updateStatsList
                (CommandHandler.handleSet ctx st (name :: rest)).2.stats
                (CommandHandler.lowerStr name) dur }) := by
      simp only [CommandHandler.handle, h]
      rfl
    have hset : CommandHandler.handleSet ctx st (name :: rest)
        = ("-ERR wrong number of arguments for 'set' command\r\n", st) := by
      rcases rest with _ | ⟨a, _ | ⟨b, _ | ⟨c, t⟩⟩⟩
      · rfl
      · rfl
      · exact absurd rfl hlen
      · rfl
    rw [hh, hset]
    exact ⟨rfl, rfl⟩
  · intro σ ctx st dur name rest h hlen
    have hh : CommandHandler.handle ctx st dur (name :: rest)
        = ((CommandHandler.handleGet ctx st (name :: rest)).1,
           { (CommandHandler.handleGet ctx st (name :: rest)).2 with
              stats := CommandHandler.updateStatsList
                (CommandHandler.handleGet ctx st (name :: rest)).2.stats
                (CommandHandler.lowerStr name) dur }) := by
      simp only [CommandHandler.handle, h]
      rfl
    have hget : CommandHandler.handleGet ctx st (name :: rest)
        = ("-ERR wrong number of arguments for 'get' command\r\n", st) := by
      rcases rest with _ | ⟨a, _ | ⟨b, t⟩⟩
      · rfl
      · exact absurd rfl hlen
      · rfl
    rw [hh, hget]
    exact ⟨rfl, rfl⟩
  · intro σ ctx st dur name rest h hlen
    have hh : CommandHandler.handle ctx st dur (name :: rest)
        = ((CommandHandler.handleDel ctx st (name :: rest)).1,
           { (CommandHandler.handleDel ctx st (name :: rest)).2 with
              stats := CommandHandler.updateStatsList
                (CommandHandler.handleDel ctx st (name :: rest)).2.stats
                (CommandHandler.lowerStr name) dur }) := by
      simp only [CommandHandler.handle, h]
      rfl
    have hdel : CommandHandler.handleDel ctx st (name :: rest)
        = ("-ERR wrong number of arguments for 'del' command\r\n", st) := by
      rcases rest with _ | ⟨a, _ | ⟨b, t⟩⟩
      · rfl
      · exact absurd rfl hlen
      · rfl
    rw [hh, hdel]
    exact ⟨rfl, rfl⟩
  · intro σ ctx st dur name rest h hlen
    have hh : CommandHandler.handle ctx st dur (name :: rest)
        = ((CommandHandler.handleMset ctx st (name :: rest)).1,
           { (CommandHandler.handleMset ctx st (name :: rest)).2 with
              stats := CommandHandler.updateStatsList
                (CommandHandler.handleMset ctx st (name :: rest)).2.stats
                (CommandHandler.lowerStr name) dur }) := by
      simp only [CommandHandler.handle, h]
      rfl
    have hcond : (name :: rest).length < 3 ∨ (name :: rest).length % 2 ≠ 1 := by
      simp only [List.length_cons]
      rcases hlen with h0 | hodd
      · left; omega
      · right; omega
    have hmset : CommandHandler.handleMset ctx st (name :: rest)
        = ("-ERR wrong number of arguments for 'mset' command\r\n", st) := by
      unfold CommandHandler.handleMset
      rw [if_pos hcond]
    rw [hh, hmset]
    exact ⟨rfl, rfl⟩
  · intro σ ctx st dur name rest h hlen
    have hh : CommandHandler.handle ctx st dur (name :: rest)
        = ((CommandHandler.handleMget ctx st (name :: rest)).1,
           { (CommandHandler.handleMget ctx st (name :: rest)).2 with
              stats := CommandHandler.updateStatsList
                (CommandHandler.handleMget ctx st (name :: rest)).2.stats
                (CommandHandler.lowerStr name) dur }) := by
      simp only [CommandHandler.handle, h]
      rfl
    have hmget : CommandHandler.handleMget ctx st (name :: rest)
        = ("-ERR wrong number of arguments for 'mget' command\r\n", st) := by
      have hr : rest = [] := List.eq_nil_of_length_eq_zero hlen
      subst hr
      rfl
    rw [hh, hmget]
    exact ⟨rfl, rfl⟩

/-- Witness for C6: each error case exercised at a concrete input. -/
theorem c6_dispatch_error_replies_witness :
    (CommandHandler.handle CommandHandler.whctx CommandHandler.whstate 0
        [("FOO"), ("x")]).1 = "-ERR unknown command 'foo'\r\n" ∧
    (CommandHandler.handle CommandHandler.whctx CommandHandler.whstate 0
        [("SET"), ("x")]).1
      = "-ERR wrong number of arguments for 'set' command\r\n" ∧
    (CommandHandler.handle CommandHandler.whctx CommandHandler.whstate 0
        [("GET")]).1
      = "-ERR wrong number of arguments for 'get' command\r\n" ∧
    (CommandHandler.handle CommandHandler.whctx CommandHandler.whstate 0
        [("DEL"), ("a"), ("b")]).1
      = "-ERR wrong number of arguments for 'del' command\r\n" ∧
    (CommandHandler.handle CommandHandler.whctx CommandHandler.whstate 0
        [("MSET"), ("k"), ("v"), ("k2")]).1
      = "-ERR wrong number of arguments for 'mset' command\r\n" ∧
    (CommandHandler.handle CommandHandler.whctx CommandHandler.whstate 0
        [("MGET")]).1
      = "-ERR wrong number of arguments for 'mget' command\r\n" := by
  refine ⟨?_, ?_, ?_, ?_, ?_, ?_⟩
  · exact ((c6_dispatch_error_replies.1 Unit CommandHandler.whctx
      CommandHandler.whstate 0 ("FOO") [("x")] (by decide)).1).trans (by decide)
  · exact (c6_dispatch_error_replies.2.1 Unit CommandHandler.whctx
      CommandHandler.whstate 0 ("SET") [("x")] (by decide) (by decide)).1
  · exact (c6_dispatch_error_replies.2.2.1 Unit CommandHandler.whctx
      CommandHandler.whstate 0 ("GET") [] (by decide) (by decide)).1
  · exact (c6_dispatch_error_replies.2.2.2.1 Unit CommandHandler.whctx
      CommandHandler.whstate 0 ("DEL") [("a"), ("b")] (by decide) (by decide)).1
  · exact (c6_dispatch_error_replies.2.2.2.2.1 Unit CommandHandler.whctx
      CommandHandler.whstate 0 ("MSET") [("k"), ("v"), ("k2")] (by decide)
      (by decide)).1
  · exact (c6_dispatch_error_replies.2.2.2.2.2 Unit CommandHandler.whctx
      CommandHandler.whstate 0 ("MGET") [] (by decide) (by decide)).1

namespace Cache

theorem eraseFirst_sublist (k : String) :
    ∀ sh : List Item, List.Sublist (eraseFirst k sh) sh := by
  intro sh
  induction sh with
  | nil => exact List.Sublist.refl _
  | cons a rest ih =>
    cases ha : a.key == k with
    | true =>
      simp only [eraseFirst, ha, if_true]
      exact List.Sublist.cons a (List.Sublist.refl rest)
    | false =>
      simp only [eraseFirst, ha]
      simp only [Bool.false_eq_true, if_false]
      exact List.Sublist.cons₂ a ih

theorem findItem_none_iff_not_mem (k : String) :
    ∀ sh : List Item, findItem k sh = none ↔ k ∉ keys sh := by
  intro sh
  induction sh with
  | nil => simp [findItem, keys]
  | cons a rest ih =>
    cases ha : a.key == k with
    | true =>
      have hak : a.key = k := beq_iff_eq.mp ha
      simp [findItem, ha, keys, hak]
    | false =>
      have hak : ¬ a.key = k := beq_eq_false_iff_ne.mp ha
      simp only [findItem, ha, Bool.false_eq_true, if_false, keys, List.map_cons,
        List.mem_cons]
      rw [ih]
      simp only [keys]
      constructor
      · intro hn hor
        rcases hor with h1 | h1
        · exact hak h1.symm
        · exact hn h1
      · intro hn h1
        exact hn (Or.inr h1)

theorem length_eraseFirst_of_found (k : String) :
    ∀ (sh : List Item) (it : Item), findItem k sh = some it →
      (eraseFirst k sh).length + 1 = sh.length := by
  intro sh
  induction sh with
  | nil => intro it h; cases h
  | cons a rest ih =>
    intro it h
    cases ha : a.key == k with
    | true => simp [eraseFirst, ha]
    | false =>
      have h2 : findItem k rest = some it := by simpa [findItem, ha] using h
      simp only [eraseFirst, ha, Bool.false_eq_true, if_false, List.length_cons]
      rw [← ih it h2]

theorem moveToFront_perm_found (k : String) :
    ∀ (sh : List Item) (it : Item), findItem k sh = some it →
      (it :: eraseFirst k sh).Perm sh := by
  intro sh
  induction sh with
  | nil => intro it h; cases h
  | cons a rest ih =>
    intro it h
    cases ha : a.key == k with
    | true =>
      have h2 : a = it := by simpa [findItem, ha] using h
      subst h2
      simp [eraseFirst, ha]
    | false =>
      have h2 : findItem k rest = some it := by simpa [findItem, ha] using h
      simp only [eraseFirst, ha, Bool.false_eq_true, if_false]
      exact (List.Perm.swap a it _).trans (List.Perm.cons a (ih it h2))

theorem moveToFront_perm (k : String) (sh : List Item) :
    (moveToFront k sh).Perm sh := by
  unfold moveToFront
  cases hf : findItem k sh with
  | none => exact List.Perm.refl _
  | some it => exact moveToFront_perm_found k sh it hf

theorem keys_replaceItem (k : String) (nit : Item) (hk : nit.key = k) :
    ∀ sh : List Item, keys (replaceItem k nit sh) = keys sh := by
  intro sh
  induction sh with
  | nil => rfl
  | cons a rest ih =>
    cases ha : a.key == k with
    | true =>
      have hak : a.key = k := beq_iff_eq.mp ha
      simp [replaceItem, ha, keys, hk, hak]
    | false =>
      simp only [replaceItem, ha, Bool.false_eq_true, if_false, keys,
        List.map_cons]
      simp only [keys] at ih
      rw [ih]

theorem length_replaceItem (k : String) (nit : Item) (hk : nit.key = k)
    (sh : List Item) : (replaceItem k nit sh).length = sh.length := by
  have h := keys_replaceItem k nit hk sh
  have h1 : (keys (replaceItem k nit sh)).length = (keys sh).length := by rw [h]
  simpa [keys] using h1

theorem insertByPrio_perm (x : String × Prio) :
    ∀ l : List (String × Prio), (insertByPrio x l).Perm (x :: l) := by
  intro l
  induction l with
  | nil => exact List.Perm.refl _
  | cons y ys ih =>
    cases hgt : Prio.gtb x.2 y.2 with
    | true => simp [insertByPrio, hgt]
    | false =>
      simp only [insertByPrio, hgt, Bool.false_eq_true, if_false]
      exact (List.Perm.cons y ih).trans (List.Perm.swap x y ys)

theorem sortByPrioDesc_perm :
    ∀ l : List (String × Prio), (sortByPrioDesc l).Perm l := by
  intro l
  induction l with
  | nil => exact List.Perm.refl _
  | cons a rest ih =>
    have h1 : sortByPrioDesc (a :: rest) = insertByPrio a (sortByPrioDesc rest) := rfl
    rw [h1]
    exact (insertByPrio_perm a _).trans (List.Perm.cons a ih)

theorem findItem_eraseFirst_self (k : String) :
    ∀ sh : List Item, (keys sh).Nodup → findItem k (eraseFirst k sh) = none := by
  intro sh
  induction sh with
  | nil => intro _; rfl
  | cons a rest ih =>
    intro hnd
    have hnd2 : (keys rest).Nodup := (List.nodup_cons.mp hnd).2
    cases ha : a.key == k with
    | true =>
      have hak : a.key = k := beq_iff_eq.mp ha
      have hnm : a.key ∉ keys rest := (List.nodup_cons.mp hnd).1
      simp only [eraseFirst, ha, if_true]
      rw [findItem_none_iff_not_mem]
      rw [hak] at hnm
      exact hnm
    | false =>
      simp only [eraseFirst, ha, Bool.false_eq_true, if_false, findItem]
      rw [ih hnd2]

theorem mem_of_mem_set {α : Type} :
    ∀ (l : List α) (i : Nat) (x y : α), y ∈ l.set i x → y = x ∨ y ∈ l := by
  intro l
  induction l with
  | nil => intro i x y h; cases h
  | cons a rest ih =>
    intro i x y h
    cases i with
    | zero =>
      rcases List.mem_cons.mp h with h1 | h1
      · exact Or.inl h1
      · exact Or.inr (List.mem_cons_of_mem a h1)
    | succ i2 =>
      rcases List.mem_cons.mp h with h1 | h1
      · exact Or.inr (by rw [h1]; exact List.mem_cons_self a rest)
      · rcases ih i2 x y h1 with h2 | h2
        · exact Or.inl h2
        · exact Or.inr (List.mem_cons_of_mem a h2)

theorem totalItems_set :
    ∀ (l : List (List Item)) (i : Nat) (x : List Item), i < l.length →
      totalItems (l.set i x) + (l.getD i []).length = totalItems l + x.length := by
  intro l
  induction l with
  | nil => intro i x h; cases h
  | cons a rest ih =>
    intro i x h
    cases i with
    | zero =>
      have hg : (a :: rest).getD 0 [] = a := rfl
      have hs : (a :: rest).set 0 x = x :: rest := rfl
      rw [hg, hs]
      simp only [totalItems, List.map_cons, List.sum_cons]
      omega
    | succ i2 =>
      have hg : (a :: rest).getD (i2 + 1) [] = rest.getD i2 [] := rfl
      have hs : (a :: rest).set (i2 + 1) x = a :: rest.set i2 x := rfl
      rw [hg, hs]
      have h2 := ih i2 x (Nat.lt_of_succ_lt_succ h)
      simp only [totalItems, List.map_cons, List.sum_cons] at h2 ⊢
      omega

theorem neCount_set :
    ∀ (l : List (List Item)) (i : Nat) (x : List Item), i < l.length →
      neCount (l.set i x) + (if (l.getD i []).isEmpty then 0 else 1)
        = neCount l + (if x.isEmpty then 0 else 1) := by
  intro l
  induction l with
  | nil => intro i x h; cases h
  | cons a rest ih =>
    intro i x h
    cases i with
    | zero =>
      have hg : (a :: rest).getD 0 [] = a := rfl
      have hs : (a :: rest).set 0 x = x :: rest := rfl
      rw [hg, hs]
      simp only [neCount, List.countP_cons]
      cases hx : x.isEmpty <;> cases hA : a.isEmpty <;> simp [hx, hA]
    | succ i2 =>
      have hg : (a :: rest).getD (i2 + 1) [] = rest.getD i2 [] := rfl
      have hs : (a :: rest).set (i2 + 1) x = a :: rest.set i2 x := rfl
      rw [hg, hs]
      have h2 := ih i2 x (Nat.lt_of_succ_lt_succ h)
      simp only [neCount, List.countP_cons] at h2 ⊢
      omega

theorem set_getD_self {α : Type} (d : α) :
    ∀ (l : List α) (i : Nat), i < l.length → l.set i (l.getD i d) = l := by
  intro l
  induction l with
  | nil => intro i h; cases h
  | cons a rest ih =>
    intro i h
    cases i with
    | zero => rfl
    | succ i2 =>
      have hg : (a :: rest).getD (i2 + 1) d = rest.getD i2 d := rfl
      rw [hg]
      have hs : (a :: rest).set (i2 + 1) (rest.getD i2 d)
          = a :: rest.set i2 (rest.getD i2 d) := rfl
      rw [hs, ih i2 (Nat.lt_of_succ_lt_succ h)]

theorem getD_length_le_totalItems :
    ∀ (l : List (List Item)) (i : Nat), (l.getD i []).length ≤ totalItems l := by
  intro l
  induction l with
  | nil => intro i; simp [List.getD, totalItems]
  | cons a rest ih =>
    intro i
    cases i with
    | zero =>
      have hg : (a :: rest).getD 0 [] = a := rfl
      rw [hg]
      simp only [totalItems, List.map_cons, List.sum_cons]
      exact Nat.le_add_right _ _
    | succ i2 =>
      have hg : (a :: rest).getD (i2 + 1) [] = rest.getD i2 [] := rfl
      rw [hg]
      have h2 := ih i2
      simp only [totalItems] at h2
      simp only [totalItems, List.map_cons, List.sum_cons]
      omega

theorem totalItems_map_nil (l : List (List Item)) :
    totalItems (l.map (fun _ => [])) = 0 := by
  induction l with
  | nil => rfl
  | cons a rest ih => simpa [totalItems, List.map_cons] using ih

end Cache

namespace Cache

theorem getD_mem {α : Type} (d : α) :
    ∀ (l : List α) (i : Nat), i < l.length → l.getD i d ∈ l := by
  intro l
  induction l with
  | nil => intro i h; cases h
  | cons a rest ih =>
    intro i h
    cases i with
    | zero => exact List.mem_cons_self a rest
    | succ i2 =>
      have hg : (a :: rest).getD (i2 + 1) d = rest.getD i2 d := rfl
      rw [hg]
      exact List.mem_cons_of_mem a (ih i2 (Nat.lt_of_succ_lt_succ h))

theorem foldl_preserve {σ α : Type} (P : CacheState σ → Prop)
    (f : CacheState σ → α → CacheState σ)
    (hstep : ∀ s x, P s → P (f s x)) :
    ∀ (ks : List α) (s : CacheState σ), P s → P (ks.foldl f s) := by
  intro ks
  induction ks with
  | nil => intro s h; exact h
  | cons x xs ih =>
    intro s h
    exact ih _ (hstep s x h)

theorem isEmpty_false_of_cons (sh : List Item) (h : sh ≠ []) :
    sh.isEmpty = false := by
  cases sh with
  | nil => exact absurd rfl h
  | cons a rest => rfl

theorem findItem_some_shard_lt {σ : Type} (st : CacheState σ) (i : Nat)
    (k : String) (it : Item) (h : findItem k (getShard st i) = some it) :
    i < st.shards.length := by
  apply getD_ne_nil_lt st.shards i
  intro he
  unfold getShard at h
  rw [he] at h
  cases h

theorem evictStep_preserve {σ : Type} (ctx : Ctx σ) (i : Nat)
    (shards0 : List (List Item)) (sh0 : List Item) (cap0 n0 : Nat) :
    ∀ (s : CacheState σ) (k : String),
      (CInv ctx s ∧ s.capacity = cap0 ∧ s.size ≤ n0 ∧
        s.shards = shards0.set i (getShard s i) ∧
        List.Sublist (getShard s i) sh0) →
      (CInv ctx (evictStep ctx i s k) ∧ (evictStep ctx i s k).capacity = cap0 ∧
        (evictStep ctx i s k).size ≤ n0 ∧
        (evictStep ctx i s k).shards
          = shards0.set i (getShard (evictStep ctx i s k) i) ∧
        List.Sublist (getShard (evictStep ctx i s k) i) sh0) := by
  intro s k h
  obtain ⟨hinv, hcap, hsz, hset, hsub⟩ := h
  cases hf : findItem k (getShard s i) with
  | none =>
    have hid : evictStep ctx i s k = s := by
      unfold evictStep
      rw [hf]
    rw [hid]
    exact ⟨hinv, hcap, hsz, hset, hsub⟩
  | some it =>
    have hlt : i < s.shards.length := findItem_some_shard_lt s i k it hf
    have hne : getShard s i ≠ [] := by
      intro he
      rw [he] at hf
      cases hf
    have hstep : evictStep ctx i s k
        = { setShard { s with pol := ctx.pol.onEviction s.pol k it.m } i
              (eraseFirst k (getShard s i)) with
            size := s.size - 1, evictions := s.evictions + 1 } := by
      unfold evictStep
      rw [hf]
      rfl
    have hshards2 : (evictStep ctx i s k).shards
        = s.shards.set i (eraseFirst k (getShard s i)) := by
      rw [hstep]
      rfl
    have hget2 : getShard (evictStep ctx i s k) i
        = eraseFirst k (getShard s i) := by
      unfold getShard
      rw [hshards2]
      exact getD_set_self [] s.shards i _ hlt
    have hsize2 : (evictStep ctx i s k).size = s.size - 1 := by
      rw [hstep]
    have hcap2 : (evictStep ctx i s k).capacity = s.capacity := by
      rw [hstep]
      rfl
    have hlen2 : (evictStep ctx i s k).shards.length = s.shards.length := by
      rw [hshards2, List.length_set]
    have htot := totalItems_set s.shards i (eraseFirst k (getShard s i)) hlt
    have hel := length_eraseFirst_of_found k (getShard s i) it hf
    have hgl := getD_length_le_totalItems s.shards i
    have hnc := neCount_set s.shards i (eraseFirst k (getShard s i)) hlt
    have hshE : (getShard s i).isEmpty = false := isEmpty_false_of_cons _ hne
    refine ⟨⟨?_, ?_, ?_, ?_⟩, by rw [hcap2, hcap], ?_, ?_, ?_⟩
    · rw [hlen2]
      exact hinv.hlen
    · intro sh2 hmem
      rw [hshards2] at hmem
      rcases mem_of_mem_set s.shards i _ sh2 hmem with h1 | h1
      · rw [h1]
        have hnd : (keys (getShard s i)).Nodup :=
          hinv.hnodup _ (getD_mem [] s.shards i hlt)
        exact List.Nodup.sublist
          (List.Sublist.map Item.key (eraseFirst_sublist k (getShard s i))) hnd
      · exact hinv.hnodup _ h1
    · rw [hsize2, hshards2]
      have hs := hinv.hsize
      have hgs : getShard s i = s.shards.getD i [] := rfl
      rw [hgs] at htot hel ⊢
      omega
    · rw [hsize2, hcap2, hshards2]
      have hb := hinv.hbound
      have hgs : getShard s i = s.shards.getD i [] := rfl
      rw [hgs] at hnc hshE ⊢
      rw [hshE] at hnc
      simp only [Bool.false_eq_true, if_false] at hnc
      by_cases hE : (eraseFirst k (s.shards.getD i [])).isEmpty = true
      · rw [if_pos hE] at hnc
        omega
      · rw [if_neg hE] at hnc
        omega
    · rw [hsize2]
      omega
    · rw [hshards2, hget2, hset, List.set_set]
    · rw [hget2]
      exact List.Sublist.trans (eraseFirst_sublist k (getShard s i)) hsub

end Cache

namespace Cache

theorem cleanupStep_preserve {σ : Type} (i : Nat)
    (shards0 : List (List Item)) (sh0 : List Item) (cap0 n0 : Nat)
    (ctx : Ctx σ) :
    ∀ (s : CacheState σ) (k : String),
      (CInv ctx s ∧ s.capacity = cap0 ∧ s.size ≤ n0 ∧
        s.shards = shards0.set i (getShard s i) ∧
        List.Sublist (getShard s i) sh0) →
      (CInv ctx (cleanupStep i s k) ∧ (cleanupStep i s k).capacity = cap0 ∧
        (cleanupStep i s k).size ≤ n0 ∧
        (cleanupStep i s k).shards
          = shards0.set i (getShard (cleanupStep i s k) i) ∧
        List.Sublist (getShard (cleanupStep i s k) i) sh0) := by
  intro s k h
  obtain ⟨hinv, hcap, hsz, hset, hsub⟩ := h
  cases hf : findItem k (getShard s i) with
  | none =>
    have hid : cleanupStep i s k = s := by
      unfold cleanupStep
      rw [hf]
    rw [hid]
    exact ⟨hinv, hcap, hsz, hset, hsub⟩
  | some it =>
    have hlt : i < s.shards.length := findItem_some_shard_lt s i k it hf
    have hne : getShard s i ≠ [] := by
      intro he
      rw [he] at hf
      cases hf
    have hstep : cleanupStep i s k
        = { setShard s i (eraseFirst k (getShard s i)) with
            size := s.size - 1, expirations := s.expirations + 1 } := by
      unfold cleanupStep
      rw [hf]
      rfl
    have hshards2 : (cleanupStep i s k).shards
        = s.shards.set i (eraseFirst k (getShard s i)) := by
      rw [hstep]
      rfl
    have hget2 : getShard (cleanupStep i s k) i
        = eraseFirst k (getShard s i) := by
      unfold getShard
      rw [hshards2]
      exact getD_set_self [] s.shards i _ hlt
    have hsize2 : (cleanupStep i s k).size = s.size - 1 := by
      rw [hstep]
    have hcap2 : (cleanupStep i s k).capacity = s.capacity := by
      rw [hstep]
      rfl
    have hlen2 : (cleanupStep i s k).shards.length = s.shards.length := by
      rw [hshards2, List.length_set]
    have htot := totalItems_set s.shards i (eraseFirst k (getShard s i)) hlt
    have hel := length_eraseFirst_of_found k (getShard s i) it hf
    have hgl := getD_length_le_totalItems s.shards i
    have hnc := neCount_set s.shards i (eraseFirst k (getShard s i)) hlt
    have hshE : (getShard s i).isEmpty = false := isEmpty_false_of_cons _ hne
    refine ⟨⟨?_, ?_, ?_, ?_⟩, by rw [hcap2, hcap], ?_, ?_, ?_⟩
    · rw [hlen2]
      exact hinv.hlen
    · intro sh2 hmem
      rw [hshards2] at hmem
      rcases mem_of_mem_set s.shards i _ sh2 hmem with h1 | h1
      · rw [h1]
        have hnd : (keys (getShard s i)).Nodup :=
          hinv.hnodup _ (getD_mem [] s.shards i hlt)
        exact List.Nodup.sublist
          (List.Sublist.map Item.key (eraseFirst_sublist k (getShard s i))) hnd
      · exact hinv.hnodup _ h1
    · rw [hsize2, hshards2]
      have hs := hinv.hsize
      have hgs : getShard s i = s.shards.getD i [] := rfl
      rw [hgs] at htot hel ⊢
      omega
    · rw [hsize2, hcap2, hshards2]
      have hb := hinv.hbound
      have hgs : getShard s i = s.shards.getD i [] := rfl
      rw [hgs] at hnc hshE ⊢
      rw [hshE] at hnc
      simp only [Bool.false_eq_true, if_false] at hnc
      by_cases hE : (eraseFirst k (s.shards.getD i [])).isEmpty = true
      · rw [if_pos hE] at hnc
        omega
      · rw [if_neg hE] at hnc
        omega
    · rw [hsize2]
      omega
    · rw [hshards2, hget2, hset, List.set_set]
    · rw [hget2]
      exact List.Sublist.trans (eraseFirst_sublist k (getShard s i)) hsub

theorem evictItems_preserve {σ : Type} (ctx : Ctx σ) (st : CacheState σ)
    (i count : Nat) (hinv : CInv ctx st) (hlt : i < st.shards.length) :
    CInv ctx (evictItems ctx st i count) ∧
    (evictItems ctx st i count).capacity = st.capacity ∧
    (evictItems ctx st i count).size ≤ st.size ∧
    (evictItems ctx st i count).shards
      = st.shards.set i (getShard (evictItems ctx st i count) i) ∧
    List.Sublist (getShard (evictItems ctx st i count) i) (getShard st i) := by
  have hbase : CInv ctx st ∧ st.capacity = st.capacity ∧ st.size ≤ st.size ∧
      st.shards = st.shards.set i (getShard st i) ∧
      List.Sublist (getShard st i) (getShard st i) :=
    ⟨hinv, rfl, Nat.le_refl _, (set_getD_self [] st.shards i hlt).symm,
      List.Sublist.refl _⟩
  unfold evictItems
  by_cases hc : count = 0
  · rw [if_pos hc]
    exact hbase
  · rw [if_neg hc]
    exact foldl_preserve
      (fun s => CInv ctx s ∧ s.capacity = st.capacity ∧ s.size ≤ st.size ∧
        s.shards = st.shards.set i (getShard s i) ∧
        List.Sublist (getShard s i) (getShard st i))
      (evictStep ctx i)
      (fun s x h => evictStep_preserve ctx i st.shards (getShard st i)
        st.capacity st.size s x h)
      _ st hbase

theorem cleanupExpired_preserve {σ : Type} (ctx : Ctx σ) (st : CacheState σ)
    (i : Nat) (hinv : CInv ctx st) (hlt : i < st.shards.length) :
    CInv ctx (cleanupExpired ctx st i) ∧
    (cleanupExpired ctx st i).capacity = st.capacity ∧
    (cleanupExpired ctx st i).size ≤ st.size ∧
    (cleanupExpired ctx st i).shards
      = st.shards.set i (getShard (cleanupExpired ctx st i) i) ∧
    List.Sublist (getShard (cleanupExpired ctx st i) i) (getShard st i) := by
  have hbase : CInv ctx st ∧ st.capacity = st.capacity ∧ st.size ≤ st.size ∧
      st.shards = st.shards.set i (getShard st i) ∧
      List.Sublist (getShard st i) (getShard st i) :=
    ⟨hinv, rfl, Nat.le_refl _, (set_getD_self [] st.shards i hlt).symm,
      List.Sublist.refl _⟩
  unfold cleanupExpired
  exact foldl_preserve
    (fun s => CInv ctx s ∧ s.capacity = st.capacity ∧ s.size ≤ st.size ∧
      s.shards = st.shards.set i (getShard s i) ∧
      List.Sublist (getShard s i) (getShard st i))
    (cleanupStep i)
    (fun s x h => cleanupStep_preserve i st.shards (getShard st i)
      st.capacity st.size ctx s x h)
    _ st hbase

theorem evictItems_of_nil {σ : Type} (ctx : Ctx σ) (st : CacheState σ)
    (i count : Nat) (hsh : getShard st i = []) :
    evictItems ctx st i count = st := by
  unfold evictItems
  by_cases hc : count = 0
  · rw [if_pos hc]
  · rw [if_neg hc, hsh]
    simp [candidatesOf, sortByPrioDesc]

theorem calculateItemsToEvict_pos {σ : Type} (ctx : Ctx σ)
    (st : CacheState σ) : calculateItemsToEvict ctx st ≠ 0 := by
  unfold calculateItemsToEvict
  by_cases h1 : st.capacity < st.size
  · rw [if_pos h1]
    omega
  · rw [if_neg h1]
    by_cases h2 : usageExceeds st.size st.capacity ctx.opts.cleanupThreshold = true
    · rw [if_pos h2]
      by_cases h3 : targetFloor st.capacity ctx.opts.cleanupTarget < st.size
      · rw [if_pos h3]
        omega
      · rw [if_neg h3]
        omega
    · rw [if_neg h2]
      omega

theorem findItem_isSome_of_mem (k : String) (sh : List Item)
    (hm : k ∈ keys sh) : ∃ it, findItem k sh = some it := by
  cases hf : findItem k sh with
  | some it => exact ⟨it, rfl⟩
  | none => exact absurd hm ((findItem_none_iff_not_mem k sh).mp hf)

theorem foldl_evictStep_size_lt {σ : Type} (ctx : Ctx σ) (i : Nat)
    (st : CacheState σ) (k : String) (ks : List String) (hinv : CInv ctx st)
    (hmem : k ∈ keys (getShard st i)) :
    ((k :: ks).foldl (evictStep ctx i) st).size < st.size := by
  obtain ⟨it, hf⟩ := findItem_isSome_of_mem k (getShard st i) hmem
  have hlt : i < st.shards.length := findItem_some_shard_lt st i k it hf
  have hpos : 1 ≤ st.size := by
    have hs := hinv.hsize
    have hgl := getD_length_le_totalItems st.shards i
    have hne : getShard st i ≠ [] := by
      intro he
      rw [he] at hf
      cases hf
    have hl : 1 ≤ (getShard st i).length := by
      cases hg : getShard st i with
      | nil => exact absurd hg hne
      | cons a rest => simp [hg]
    have hgs : getShard st i = st.shards.getD i [] := rfl
    rw [hgs] at hl
    omega
  have hstep : (evictStep ctx i st k).size = st.size - 1 := by
    unfold evictStep
    rw [hf]
    rfl
  have hc1 := evictStep_preserve ctx i st.shards (getShard st i)
    st.capacity st.size st k
    ⟨hinv, rfl, Nat.le_refl _, (set_getD_self [] st.shards i hlt).symm,
      List.Sublist.refl _⟩
  have hbase : CInv ctx (evictStep ctx i st k) ∧
      (evictStep ctx i st k).capacity = st.capacity ∧
      (evictStep ctx i st k).size ≤ st.size - 1 ∧
      (evictStep ctx i st k).shards
        = st.shards.set i (getShard (evictStep ctx i st k) i) ∧
      List.Sublist (getShard (evictStep ctx i st k) i) (getShard st i) :=
    ⟨hc1.1, hc1.2.1, Nat.le_of_eq hstep, hc1.2.2.2.1, hc1.2.2.2.2⟩
  have hfold := foldl_preserve
    (fun s => CInv ctx s ∧ s.capacity = st.capacity ∧ s.size ≤ st.size - 1 ∧
      s.shards = st.shards.set i (getShard s i) ∧
      List.Sublist (getShard s i) (getShard st i))
    (evictStep ctx i)
    (fun s x h => evictStep_preserve ctx i st.shards (getShard st i)
      st.capacity (st.size - 1) s x h)
    ks (evictStep ctx i st k) hbase
  have hfinal := hfold.2.2.1
  have hsteps : (k :: ks).foldl (evictStep ctx i) st
      = ks.foldl (evictStep ctx i) (evictStep ctx i st k) := rfl
  rw [hsteps]
  omega

theorem evictItems_size_lt {σ : Type} (ctx : Ctx σ) (st : CacheState σ)
    (i count : Nat) (hinv : CInv ctx st) (hc : count ≠ 0)
    (hne : getShard st i ≠ []) :
    (evictItems ctx st i count).size < st.size := by
  obtain ⟨a, rest, hcons⟩ : ∃ a rest, getShard st i = a :: rest := by
    cases hg : getShard st i with
    | nil => exact absurd hg hne
    | cons a rest => exact ⟨a, rest, rfl⟩
  have hclen : (candidatesOf ctx st.pol st.tick (getShard st i)).length
      = (getShard st i).length := by
    unfold candidatesOf
    rw [List.length_map]
  have hperm := sortByPrioDesc_perm
    (candidatesOf ctx st.pol st.tick (getShard st i))
  have hslen : (sortByPrioDesc
      (candidatesOf ctx st.pol st.tick (getShard st i))).length
      = (getShard st i).length := by
    rw [hperm.length_eq, hclen]
  obtain ⟨c, cs, hcc⟩ : ∃ c cs, sortByPrioDesc
      (candidatesOf ctx st.pol st.tick (getShard st i)) = c :: cs := by
    cases hs : sortByPrioDesc (candidatesOf ctx st.pol st.tick (getShard st i)) with
    | nil =>
      rw [hs] at hslen
      rw [hcons] at hslen
      cases hslen
    | cons c cs => exact ⟨c, cs, rfl⟩
  have hmemc : c ∈ candidatesOf ctx st.pol st.tick (getShard st i) := by
    apply hperm.mem_iff.mp
    rw [hcc]
    exact List.mem_cons_self c cs
  have hmemk : c.1 ∈ keys (getShard st i) := by
    unfold candidatesOf at hmemc
    obtain ⟨it, hit, hpair⟩ := List.mem_map.mp hmemc
    rw [← hpair]
    exact List.mem_map.mpr ⟨it, hit, rfl⟩
  obtain ⟨m, hm⟩ : ∃ m, min count (sortByPrioDesc
      (candidatesOf ctx st.pol st.tick (getShard st i))).length = m + 1 := by
    rw [hslen, hcons]
    have h1 : 1 ≤ count := Nat.one_le_iff_ne_zero.mpr hc
    have h2 : 1 ≤ (a :: rest).length := by simp
    have h3 : 1 ≤ min count (a :: rest).length := le_min h1 h2
    exact ⟨min count (a :: rest).length - 1, by omega⟩
  unfold evictItems
  rw [if_neg hc]
  simp only [hcc] at hm ⊢
  rw [hm, List.take_succ_cons, List.map_cons]
  exact foldl_evictStep_size_lt ctx i st c.1 _ hinv hmemk

end Cache

namespace Cache

theorem findItem_some_mem (k : String) :
    ∀ (sh : List Item) (it : Item), findItem k sh = some it →
      it ∈ sh ∧ it.key = k := by
  intro sh
  induction sh with
  | nil => intro it h; cases h
  | cons a rest ih =>
    intro it h
    cases ha : a.key == k with
    | true =>
      have h2 : a = it := by simpa [findItem, ha] using h
      subst h2
      exact ⟨List.mem_cons_self a rest, beq_iff_eq.mp ha⟩
    | false =>
      have h2 : findItem k rest = some it := by simpa [findItem, ha] using h
      obtain ⟨hm, hk⟩ := ih it h2
      exact ⟨List.mem_cons_of_mem a hm, hk⟩

theorem findItem_of_mem_nodup :
    ∀ (sh : List Item) (it : Item), it ∈ sh → (keys sh).Nodup →
      findItem it.key sh = some it := by
  intro sh
  induction sh with
  | nil => intro it h _; cases h
  | cons a rest ih =>
    intro it hm hnd
    have hnd2 : (a.key :: keys rest).Nodup := hnd
    rcases List.mem_cons.mp hm with h1 | h1
    · subst h1
      simp [findItem]
    · have hne : (a.key == it.key) = false := by
        apply beq_eq_false_iff_ne.mpr
        intro he
        have hmem : it.key ∈ keys rest := List.mem_map.mpr ⟨it, h1, rfl⟩
        rw [← he] at hmem
        exact (List.nodup_cons.mp hnd2).1 hmem
      simp only [findItem, hne, Bool.false_eq_true, if_false]
      exact ih it h1 (List.nodup_cons.mp hnd2).2

theorem findItem_of_sublist (j : String) (a b : List Item)
    (hs : List.Sublist a b) (hnd : (keys b).Nodup) (it : Item)
    (h : findItem j a = some it) : findItem j b = some it := by
  obtain ⟨hm, hk⟩ := findItem_some_mem j a it h
  have hmb : it ∈ b := hs.subset hm
  rw [← hk]
  exact findItem_of_mem_nodup b it hmb hnd

theorem CInv_congr {σ : Type} (ctx : Ctx σ) (a b : CacheState σ)
    (hinv : CInv ctx a) (hsh : b.shards = a.shards) (hsz : b.size = a.size)
    (hcap : b.capacity = a.capacity) : CInv ctx b := by
  refine ⟨?_, ?_, ?_, ?_⟩
  · rw [hsh]
    exact hinv.hlen
  · intro sh hm
    rw [hsh] at hm
    exact hinv.hnodup sh hm
  · rw [hsz, hsh]
    exact hinv.hsize
  · rw [hsz, hcap, hsh]
    exact hinv.hbound

theorem lookup_congr {σ : Type} (ctx : Ctx σ) (a b : CacheState σ)
    (hsh : b.shards = a.shards) (j : String) :
    cacheLookup ctx b j = cacheLookup ctx a j := by
  unfold cacheLookup getShard
  rw [hsh]

theorem CInv_set_shard {σ : Type} (ctx : Ctx σ) (st st2 : CacheState σ)
    (i : Nat) (sh3 : List Item) (hinv : CInv ctx st) (hi : i < st.shards.length)
    (hshards : st2.shards = st.shards.set i sh3)
    (hsize : st2.size = st.size) (hcap : st2.capacity = st.capacity)
    (hkeys : (keys sh3).Perm (keys (getShard st i)))
    (hne : getShard st i ≠ []) : CInv ctx st2 := by
  have hlenk : sh3.length = (getShard st i).length := by
    have h1 := hkeys.length_eq
    simpa [keys] using h1
  have htot := totalItems_set st.shards i sh3 hi
  have hnc := neCount_set st.shards i sh3 hi
  have hgs : getShard st i = st.shards.getD i [] := rfl
  have hshE : (getShard st i).isEmpty = false := isEmpty_false_of_cons _ hne
  have hsh3ne : sh3 ≠ [] := by
    intro he
    rw [he] at hlenk
    cases hg : getShard st i with
    | nil => exact hne hg
    | cons a r =>
      rw [hg] at hlenk
      simp at hlenk
  have hsh3E : sh3.isEmpty = false := isEmpty_false_of_cons _ hsh3ne
  refine ⟨?_, ?_, ?_, ?_⟩
  · rw [hshards, List.length_set]
    exact hinv.hlen
  · intro sh hm
    rw [hshards] at hm
    rcases mem_of_mem_set st.shards i sh3 sh hm with h1 | h1
    · rw [h1]
      exact (hkeys.nodup_iff).mpr (hinv.hnodup _ (getD_mem [] st.shards i hi))
    · exact hinv.hnodup _ h1
  · rw [hsize, hshards]
    have hs := hinv.hsize
    rw [hgs] at hlenk
    omega
  · rw [hsize, hcap, hshards]
    have hb := hinv.hbound
    rw [hgs] at hshE
    rw [hshE, hsh3E] at hnc
    simp only [Bool.false_eq_true, if_false] at hnc
    omega

theorem lookup_set_shard_ne {σ : Type} (ctx : Ctx σ) (st st2 : CacheState σ)
    (k : String) (sh3 : List Item) (hi : shardIdx ctx k < st.shards.length)
    (hshards : st2.shards = st.shards.set (shardIdx ctx k) sh3)
    (hsame : ∀ j, j ≠ k →
      findItem j sh3 = findItem j (getShard st (shardIdx ctx k))) :
    ∀ j, j ≠ k → cacheLookup ctx st2 j = cacheLookup ctx st j := by
  intro j hj
  unfold cacheLookup
  by_cases hij : shardIdx ctx j = shardIdx ctx k
  · have hg2 : getShard st2 (shardIdx ctx j) = sh3 := by
      unfold getShard
      rw [hshards, hij]
      exact getD_set_self [] st.shards _ sh3 hi
    rw [hg2, hsame j hj, hij]
  · have hg2 : getShard st2 (shardIdx ctx j) = getShard st (shardIdx ctx j) := by
      unfold getShard
      rw [hshards]
      exact getD_set_ne [] st.shards _ _ sh3 (fun he => hij he.symm)
    rw [hg2]

theorem getShard_of_set {σ : Type} (st2 st : CacheState σ) (i : Nat)
    (sh3 : List Item) (hi : i < st.shards.length)
    (hshards : st2.shards = st.shards.set i sh3) :
    getShard st2 i = sh3 := by
  unfold getShard
  rw [hshards]
  exact getD_set_self [] st.shards i sh3 hi

theorem getD_replicate_nil {α : Type} :
    ∀ (n i : Nat), (List.replicate n ([] : List α)).getD i [] = [] := by
  intro n
  induction n with
  | zero => intro i; rfl
  | succ m ih =>
    intro i
    cases i with
    | zero => rfl
    | succ i2 => exact ih i2

theorem totalItems_replicate :
    ∀ n : Nat, totalItems (List.replicate n ([] : List Item)) = 0 := by
  intro n
  induction n with
  | zero => rfl
  | succ m ih => simpa [totalItems, List.replicate] using ih

theorem initState_CInv {σ : Type} (ctx : Ctx σ) : CInv ctx (initState ctx) := by
  refine ⟨?_, ?_, ?_, ?_⟩
  · exact List.length_replicate _ _
  · intro sh hm
    rw [List.eq_of_mem_replicate hm]
    exact List.nodup_nil
  · exact (totalItems_replicate _).symm
  · exact Nat.zero_le _

theorem initState_lookup_none {σ : Type} (ctx : Ctx σ) (j : String) :
    cacheLookup ctx (initState ctx) j = none := by
  unfold cacheLookup getShard initState
  rw [getD_replicate_nil]
  rfl

theorem clear_CInv {σ : Type} (ctx : Ctx σ) (st : CacheState σ)
    (hinv : CInv ctx st) : CInv ctx (clear st) := by
  refine ⟨?_, ?_, ?_, ?_⟩
  · show (st.shards.map fun _ => []).length = _
    rw [List.length_map]
    exact hinv.hlen
  · intro sh hm
    obtain ⟨x, _, he⟩ := List.mem_map.mp hm
    rw [← he]
    exact List.nodup_nil
  · show (0 : Nat) = totalItems (st.shards.map fun _ => [])
    rw [totalItems_map_nil]
  · exact Nat.zero_le _

end Cache

namespace Cache

theorem putSt1_spec {σ : Type} (ctx : Ctx σ) (st : CacheState σ) (k : String)
    (hinv : CInv ctx st) (hi : shardIdx ctx k < st.shards.length) :
    CInv ctx (putSt1 ctx st k) ∧
    (putSt1 ctx st k).capacity = st.capacity ∧
    (putSt1 ctx st k).size ≤ st.size ∧
    (putSt1 ctx st k).shards = st.shards.set (shardIdx ctx k)
      (getShard (putSt1 ctx st k) (shardIdx ctx k)) ∧
    List.Sublist (getShard (putSt1 ctx st k) (shardIdx ctx k))
      (getShard st (shardIdx ctx k)) := by
  have hinvT : CInv ctx { st with tick := st.tick + 1 } :=
    CInv_congr ctx st _ hinv rfl rfl rfl
  unfold putSt1
  dsimp only []
  by_cases hcs : st.capacity ≤ st.size
  · rw [if_pos hcs]
    exact evictItems_preserve ctx { st with tick := st.tick + 1 }
      (shardIdx ctx k)
      (calculateItemsToEvict ctx { st with tick := st.tick + 1 }) hinvT hi
  · rw [if_neg hcs]
    exact ⟨hinvT, rfl, Nat.le_refl _,
      (set_getD_self [] st.shards (shardIdx ctx k) hi).symm,
      List.Sublist.refl _⟩

theorem putSt3_spec {σ : Type} (ctx : Ctx σ) (st : CacheState σ) (k v : String)
    (hinv : CInv ctx st) (hsc : 0 < ctx.opts.shardCount)
    (hf : findItem k (getShard st (shardIdx ctx k)) = none) :
    ∃ m : Metrics,
      CInv ctx (putSt3 ctx st k v) ∧
      (putSt3 ctx st k v).capacity = st.capacity ∧
      (putSt3 ctx st k v).shards = st.shards.set (shardIdx ctx k)
        (⟨k, v, m⟩ :: getShard (putSt1 ctx st k) (shardIdx ctx k)) := by
  have hi : shardIdx ctx k < st.shards.length := by
    rw [hinv.hlen]
    exact Nat.mod_lt _ hsc
  obtain ⟨hinv1, hcap1, hsz1, hset1, hsub1⟩ := putSt1_spec ctx st k hinv hi
  have hlen1 : (putSt1 ctx st k).shards.length = st.shards.length := by
    rw [hinv1.hlen, hinv.hlen]
  have hi1 : shardIdx ctx k < (putSt1 ctx st k).shards.length := by
    rw [hlen1]
    exact hi
  obtain ⟨M, hM⟩ : ∃ M : Metrics, (ctx.pol.onAdd (putSt1 ctx st k).pol k
      (st.tick + 1) (Metrics.init (st.tick + 1))).1 = M := ⟨_, rfl⟩
  have hsh3 : (putSt3 ctx st k v).shards
      = (putSt1 ctx st k).shards.set (shardIdx ctx k)
        (⟨k, v, M⟩ :: getShard (putSt1 ctx st k) (shardIdx ctx k)) := by
    rw [← hM]
    rfl
  have hsz3 : (putSt3 ctx st k v).size = (putSt1 ctx st k).size + 1 := rfl
  have hcp3 : (putSt3 ctx st k v).capacity = (putSt1 ctx st k).capacity := rfl
  have hgs1 : getShard (putSt1 ctx st k) (shardIdx ctx k)
      = (putSt1 ctx st k).shards.getD (shardIdx ctx k) [] := rfl
  have hknotin : k ∉ keys (getShard (putSt1 ctx st k) (shardIdx ctx k)) := by
    intro hkin
    have hsubk : List.Sublist
        (keys (getShard (putSt1 ctx st k) (shardIdx ctx k)))
        (keys (getShard st (shardIdx ctx k))) := List.Sublist.map Item.key hsub1
    exact (findItem_none_iff_not_mem k _).mp hf (hsubk.subset hkin)
  refine ⟨M, ⟨?_, ?_, ?_, ?_⟩, by rw [hcp3, hcap1], by rw [hsh3, hset1, List.set_set]⟩
  · rw [hsh3, List.length_set]
    exact hinv1.hlen
  · intro sh hm
    rw [hsh3] at hm
    rcases mem_of_mem_set (putSt1 ctx st k).shards (shardIdx ctx k) _ sh hm
      with h1 | h1
    · rw [h1]
      exact List.nodup_cons.mpr
        ⟨hknotin, hinv1.hnodup _ (getD_mem [] (putSt1 ctx st k).shards _ hi1)⟩
    · exact hinv1.hnodup _ h1
  · rw [hsz3, hsh3]
    have htot := totalItems_set (putSt1 ctx st k).shards (shardIdx ctx k)
      (⟨k, v, M⟩ :: getShard (putSt1 ctx st k) (shardIdx ctx k)) hi1
    have h1s := hinv1.hsize
    have hlc : ((⟨k, v, M⟩ : Item)
        :: getShard (putSt1 ctx st k) (shardIdx ctx k)).length
        = ((putSt1 ctx st k).shards.getD (shardIdx ctx k) []).length + 1 := rfl
    omega
  · rw [hsz3, hcp3, hcap1, hsh3]
    have hnc3 := neCount_set (putSt1 ctx st k).shards (shardIdx ctx k)
      (⟨k, v, M⟩ :: getShard (putSt1 ctx st k) (shardIdx ctx k)) hi1
    have hEc : ((⟨k, v, M⟩ : Item)
        :: getShard (putSt1 ctx st k) (shardIdx ctx k)).isEmpty = false := rfl
    rw [hEc] at hnc3
    simp only [Bool.false_eq_true, if_false] at hnc3
    have hncP := neCount_set st.shards (shardIdx ctx k)
      (getShard (putSt1 ctx st k) (shardIdx ctx k)) hi
    rw [← hset1] at hncP
    rw [hgs1] at hncP
    have hb := hinv.hbound
    by_cases hcs : st.capacity ≤ st.size
    · by_cases hshE0 : getShard st (shardIdx ctx k) = []
      · have hP1id : putSt1 ctx st k = { st with tick := st.tick + 1 } := by
          unfold putSt1
          dsimp only []
          rw [if_pos hcs]
          exact evictItems_of_nil ctx _ _ _ hshE0
        have hszP : (putSt1 ctx st k).size = st.size := by
          rw [hP1id]
        have hEst : (st.shards.getD (shardIdx ctx k) []).isEmpty = true := by
          rw [show st.shards.getD (shardIdx ctx k) [] = [] from hshE0]
          rfl
        rw [hEst] at hncP
        simp only [eq_self_iff_true, if_true] at hncP
        omega
      · have hP1e : putSt1 ctx st k
            = evictItems ctx { st with tick := st.tick + 1 } (shardIdx ctx k)
              (calculateItemsToEvict ctx { st with tick := st.tick + 1 }) := by
          unfold putSt1
          dsimp only []
          rw [if_pos hcs]
        have hinvT : CInv ctx { st with tick := st.tick + 1 } :=
          CInv_congr ctx st _ hinv rfl rfl rfl
        have hdec : (putSt1 ctx st k).size < st.size := by
          rw [hP1e]
          exact evictItems_size_lt ctx { st with tick := st.tick + 1 }
            (shardIdx ctx k) _ hinvT (calculateItemsToEvict_pos ctx _) hshE0
        have hEst : (st.shards.getD (shardIdx ctx k) []).isEmpty = false :=
          isEmpty_false_of_cons _ hshE0
        rw [hEst] at hncP
        simp only [Bool.false_eq_true, if_false] at hncP
        omega
    · have hP1id : putSt1 ctx st k = { st with tick := st.tick + 1 } := by
        unfold putSt1
        dsimp only []
        rw [if_neg hcs]
      have hszP : (putSt1 ctx st k).size = st.size := by
        rw [hP1id]
      omega

end Cache

namespace Cache

theorem lookup_ins_aux {σ : Type} (ctx : Ctx σ) (st stF : CacheState σ)
    (k v : String) (M : Metrics) (sh1 shF : List Item)
    (hsub1 : List.Sublist sh1 (getShard st (shardIdx ctx k)))
    (hndK : (keys ((⟨k, v, M⟩ : Item) :: sh1)).Nodup)
    (hndS : (keys (getShard st (shardIdx ctx k))).Nodup)
    (hsetS : stF.shards = st.shards.set (shardIdx ctx k) shF)
    (hsubF : List.Sublist shF ((⟨k, v, M⟩ : Item) :: sh1))
    (hi : shardIdx ctx k < st.shards.length) :
    ∀ j w, cacheLookup ctx stF j = some w →
      (j = k ∧ w = v) ∨ (j ≠ k ∧ cacheLookup ctx st j = some w) := by
  intro j w h
  by_cases hij : shardIdx ctx j = shardIdx ctx k
  · have hgF : getShard stF (shardIdx ctx j) = shF := by
      unfold getShard
      rw [hsetS, hij]
      exact getD_set_self [] st.shards _ shF hi
    unfold cacheLookup at h
    rw [hgF] at h
    cases hfi : findItem j shF with
    | none =>
      rw [hfi] at h
      cases h
    | some it2 =>
      rw [hfi] at h
      have hval : it2.value = w := by simpa using h
      have hx : findItem j ((⟨k, v, M⟩ : Item) :: sh1) = some it2 :=
        findItem_of_sublist j shF _ hsubF hndK it2 hfi
      by_cases hjk : j = k
      · subst hjk
        have hhead : findItem j ((⟨j, v, M⟩ : Item) :: sh1)
            = some ⟨j, v, M⟩ := by
          simp [findItem]
        rw [hhead] at hx
        have hit2 : it2 = ⟨j, v, M⟩ := by
          cases hx
          rfl
        left
        refine ⟨rfl, ?_⟩
        rw [← hval, hit2]
      · have hkj : ((⟨k, v, M⟩ : Item).key == j) = false :=
          beq_eq_false_iff_ne.mpr (fun he => hjk he.symm)
        have hx1 : findItem j sh1 = some it2 := by
          simpa only [findItem, hkj, Bool.false_eq_true, if_false] using hx
        have hst : findItem j (getShard st (shardIdx ctx k)) = some it2 :=
          findItem_of_sublist j sh1 _ hsub1 hndS it2 hx1
        right
        refine ⟨hjk, ?_⟩
        unfold cacheLookup
        rw [hij, hst]
        show some it2.value = some w
        rw [hval]
  · have hgF : getShard stF (shardIdx ctx j) = getShard st (shardIdx ctx j) := by
      unfold getShard
      rw [hsetS]
      exact getD_set_ne [] st.shards _ _ shF (fun he => hij he.symm)
    have hjk : j ≠ k := fun he => hij (by rw [he])
    refine Or.inr ⟨hjk, ?_⟩
    unfold cacheLookup at h ⊢
    rw [hgF] at h
    exact h

theorem putNew_spec {σ : Type} (ctx : Ctx σ) (st : CacheState σ) (k v : String)
    (hinv : CInv ctx st) (hsc : 0 < ctx.opts.shardCount)
    (hf : findItem k (getShard st (shardIdx ctx k)) = none) :
    CInv ctx (putNew ctx st k v) ∧
    (putNew ctx st k v).capacity = st.capacity ∧
    (∀ j w, cacheLookup ctx (putNew ctx st k v) j = some w →
      (j = k ∧ w = v) ∨ (j ≠ k ∧ cacheLookup ctx st j = some w)) := by
  have hi : shardIdx ctx k < st.shards.length := by
    rw [hinv.hlen]
    exact Nat.mod_lt _ hsc
  obtain ⟨hinv1, hcap1, hsz1, hset1, hsub1⟩ := putSt1_spec ctx st k hinv hi
  obtain ⟨M, hinv3, hcap3, hsh3⟩ := putSt3_spec ctx st k v hinv hsc hf
  have hlen3 : (putSt3 ctx st k v).shards.length = st.shards.length := by
    rw [hinv3.hlen, hinv.hlen]
  have hi3 : shardIdx ctx k < (putSt3 ctx st k v).shards.length := by
    rw [hlen3]
    exact hi
  have hg3 : getShard (putSt3 ctx st k v) (shardIdx ctx k)
      = ⟨k, v, M⟩ :: getShard (putSt1 ctx st k) (shardIdx ctx k) :=
    getShard_of_set _ st _ _ hi hsh3
  have hndK : (keys ((⟨k, v, M⟩ : Item)
      :: getShard (putSt1 ctx st k) (shardIdx ctx k))).Nodup := by
    rw [← hg3]
    exact hinv3.hnodup _ (getD_mem [] (putSt3 ctx st k v).shards _ hi3)
  have hndS : (keys (getShard st (shardIdx ctx k))).Nodup :=
    hinv.hnodup _ (getD_mem [] st.shards _ hi)
  unfold putNew
  dsimp only []
  by_cases hu : usageExceeds (putSt3 ctx st k v).size (putSt3 ctx st k v).capacity
      ctx.opts.cleanupThreshold = true
  · rw [if_pos hu]
    obtain ⟨hinvC, hcapC, hszC, hsetC, hsubC⟩ :=
      cleanupExpired_preserve ctx (putSt3 ctx st k v) (shardIdx ctx k) hinv3 hi3
    rw [hg3] at hsubC
    refine ⟨hinvC, by rw [hcapC, hcap3], ?_⟩
    exact lookup_ins_aux ctx st _ k v M
      (getShard (putSt1 ctx st k) (shardIdx ctx k)) _ hsub1 hndK hndS
      (by rw [hsetC, hsh3, List.set_set]) hsubC hi
  · rw [if_neg hu]
    refine ⟨hinv3, hcap3, ?_⟩
    exact lookup_ins_aux ctx st _ k v M
      (getShard (putSt1 ctx st k) (shardIdx ctx k)) _ hsub1 hndK hndS
      (by rw [hsh3]) (List.Sublist.refl _) hi

theorem findItem_putUpd_ne {σ : Type} (ctx : Ctx σ) (st : CacheState σ)
    (k v j : String) (it : Item) (hj : j ≠ k) :
    findItem j (putUpd ctx st k v it)
      = findItem j (getShard st (shardIdx ctx k)) := by
  unfold putUpd
  dsimp only []
  by_cases hl : ctx.pol.isLRU = true
  · rw [if_pos hl, findItem_moveToFront,
      findItem_replaceItem_ne k j _ rfl hj]
  · rw [if_neg hl, findItem_replaceItem_ne k j _ rfl hj]

theorem findItem_putUpd_self {σ : Type} (ctx : Ctx σ) (st : CacheState σ)
    (k v : String) (it : Item)
    (hf : findItem k (getShard st (shardIdx ctx k)) = some it) :
    findItem k (putUpd ctx st k v it)
      = some ⟨k, v, (ctx.pol.onAccess st.pol k (st.tick + 1) it.m).1⟩ := by
  unfold putUpd
  dsimp only []
  by_cases hl : ctx.pol.isLRU = true
  · rw [if_pos hl, findItem_moveToFront]
    exact findItem_replaceItem_self k _ rfl _ it hf
  · rw [if_neg hl]
    exact findItem_replaceItem_self k _ rfl _ it hf

theorem keys_putUpd_perm {σ : Type} (ctx : Ctx σ) (st : CacheState σ)
    (k v : String) (it : Item) :
    (keys (putUpd ctx st k v it)).Perm
      (keys (getShard st (shardIdx ctx k))) := by
  unfold putUpd
  dsimp only []
  have hkr := keys_replaceItem k
    ⟨k, v, (ctx.pol.onAccess st.pol k (st.tick + 1) it.m).1⟩ rfl
    (getShard st (shardIdx ctx k))
  by_cases hl : ctx.pol.isLRU = true
  · rw [if_pos hl]
    have hpk : (keys (moveToFront k (replaceItem k
        ⟨k, v, (ctx.pol.onAccess st.pol k (st.tick + 1) it.m).1⟩
        (getShard st (shardIdx ctx k))))).Perm
        (keys (replaceItem k
        ⟨k, v, (ctx.pol.onAccess st.pol k (st.tick + 1) it.m).1⟩
        (getShard st (shardIdx ctx k)))) :=
      (moveToFront_perm k _).map Item.key
    rw [hkr] at hpk
    exact hpk
  · rw [if_neg hl, hkr]

theorem put_spec {σ : Type} (ctx : Ctx σ) (st : CacheState σ) (k v : String)
    (hinv : CInv ctx st) (hsc : 0 < ctx.opts.shardCount) :
    CInv ctx (put ctx st k v) ∧
    (put ctx st k v).capacity = st.capacity ∧
    (∀ j w, cacheLookup ctx (put ctx st k v) j = some w →
      (j = k ∧ w = v) ∨ (j ≠ k ∧ cacheLookup ctx st j = some w)) := by
  have hi : shardIdx ctx k < st.shards.length := by
    rw [hinv.hlen]
    exact Nat.mod_lt _ hsc
  cases hf : findItem k (getShard st (shardIdx ctx k)) with
  | none =>
    have hput : put ctx st k v = putNew ctx st k v := by
      unfold put putNew putSt3 putSt1
      dsimp only []
      rw [show findItem k (getShard { st with tick := st.tick + 1 }
        (shardIdx ctx k)) = none from hf]
    rw [hput]
    exact putNew_spec ctx st k v hinv hsc hf
  | some it =>
    have hput : put ctx st k v
        = setShard { st with
            tick := st.tick + 1
            pol := (ctx.pol.onAccess st.pol k (st.tick + 1) it.m).2 }
          (shardIdx ctx k) (putUpd ctx st k v it) := by
      unfold put putUpd
      dsimp only []
      rw [show findItem k (getShard { st with tick := st.tick + 1 }
        (shardIdx ctx k)) = some it from hf]
      rfl
    have hshp : (put ctx st k v).shards
        = st.shards.set (shardIdx ctx k) (putUpd ctx st k v it) := by
      rw [hput]
      rfl
    have hszp : (put ctx st k v).size = st.size := by
      rw [hput]
      rfl
    have hcpp : (put ctx st k v).capacity = st.capacity := by
      rw [hput]
      rfl
    have hne : getShard st (shardIdx ctx k) ≠ [] := by
      intro he
      rw [he] at hf
      cases hf
    refine ⟨CInv_set_shard ctx st _ (shardIdx ctx k) (putUpd ctx st k v it)
      hinv hi hshp hszp hcpp (keys_putUpd_perm ctx st k v it) hne, hcpp, ?_⟩
    intro j w h
    by_cases hjk : j = k
    · subst hjk
      unfold cacheLookup at h
      rw [getShard_of_set _ st _ _ hi hshp, findItem_putUpd_self ctx st j v it hf]
        at h
      have hval : v = w := by simpa using h
      exact Or.inl ⟨rfl, hval.symm⟩
    · rw [lookup_set_shard_ne ctx st _ k (putUpd ctx st k v it) hi hshp
        (fun j2 hj2 => findItem_putUpd_ne ctx st k v j2 it hj2) j hjk] at h
      exact Or.inr ⟨hjk, h⟩

end Cache

namespace Cache

theorem remove_spec {σ : Type} (ctx : Ctx σ) (st : CacheState σ) (k : String)
    (hinv : CInv ctx st) :
    CInv ctx (remove ctx st k).2 ∧ (remove ctx st k).2.capacity = st.capacity ∧
    (∀ j w, cacheLookup ctx (remove ctx st k).2 j = some w →
      j ≠ k ∧ cacheLookup ctx st j = some w) := by
  cases hf : findItem k (getShard st (shardIdx ctx k)) with
  | none =>
    have hid : (remove ctx st k).2 = st := by
      unfold remove
      dsimp only []
      rw [hf]
    rw [hid]
    refine ⟨hinv, rfl, ?_⟩
    intro j w h
    refine ⟨?_, h⟩
    intro he
    subst he
    unfold cacheLookup at h
    rw [hf] at h
    cases h
  | some it =>
    have hi : shardIdx ctx k < st.shards.length :=
      findItem_some_shard_lt st _ k it hf
    have hevinv : CInv ctx (evictStep ctx (shardIdx ctx k) st k) :=
      (evictStep_preserve ctx (shardIdx ctx k) st.shards
        (getShard st (shardIdx ctx k)) st.capacity st.size st k
        ⟨hinv, rfl, Nat.le_refl _,
          (set_getD_self [] st.shards (shardIdx ctx k) hi).symm,
          List.Sublist.refl _⟩).1
    have hevsh : (evictStep ctx (shardIdx ctx k) st k).shards
        = st.shards.set (shardIdx ctx k)
          (eraseFirst k (getShard st (shardIdx ctx k))) := by
      unfold evictStep
      rw [hf]
      rfl
    have hevsz : (evictStep ctx (shardIdx ctx k) st k).size = st.size - 1 := by
      unfold evictStep
      rw [hf]
      rfl
    have hevcp : (evictStep ctx (shardIdx ctx k) st k).capacity
        = st.capacity := by
      unfold evictStep
      rw [hf]
      rfl
    have hrsh : (remove ctx st k).2.shards
        = st.shards.set (shardIdx ctx k)
          (eraseFirst k (getShard st (shardIdx ctx k))) := by
      unfold remove
      dsimp only []
      rw [hf]
      rfl
    have hrsz : (remove ctx st k).2.size = st.size - 1 := by
      unfold remove
      dsimp only []
      rw [hf]
      rfl
    have hrcp : (remove ctx st k).2.capacity = st.capacity := by
      unfold remove
      dsimp only []
      rw [hf]
      rfl
    have hrinv : CInv ctx (remove ctx st k).2 :=
      CInv_congr ctx (evictStep ctx (shardIdx ctx k) st k) _ hevinv
        (by rw [hrsh, hevsh]) (by rw [hrsz, hevsz]) (by rw [hrcp, hevcp])
    refine ⟨hrinv, hrcp, ?_⟩
    intro j w h
    by_cases hjk : j = k
    · subst hjk
      unfold cacheLookup at h
      rw [getShard_of_set _ st _ _ hi hrsh] at h
      rw [findItem_eraseFirst_self j (getShard st (shardIdx ctx j))
        (hinv.hnodup _ (getD_mem [] st.shards _ hi))] at h
      cases h
    · rw [lookup_set_shard_ne ctx st _ k
        (eraseFirst k (getShard st (shardIdx ctx k))) hi hrsh
        (fun j2 hj2 => findItem_eraseFirst_ne k j2 hj2 _) j hjk] at h
      exact ⟨hjk, h⟩

theorem get_spec {σ : Type} (ctx : Ctx σ) (st : CacheState σ) (k : String)
    (hinv : CInv ctx st) :
    CInv ctx (get ctx st k).2 ∧ (get ctx st k).2.capacity = st.capacity ∧
    (∀ w, (get ctx st k).1 = some w → cacheLookup ctx st k = some w) ∧
    (∀ j w, cacheLookup ctx (get ctx st k).2 j = some w →
      cacheLookup ctx st j = some w) := by
  cases hf : findItem k (getShard st (shardIdx ctx k)) with
  | none =>
    have hpair : get ctx st k = (none, { st with
        tick := st.tick + 1
        misses := st.misses + 1 }) := by
      unfold get
      dsimp only []
      rw [show findItem k (getShard { st with tick := st.tick + 1 } (shardIdx ctx k)) = none from hf]
    have h2 : (get ctx st k).2 = { st with
        tick := st.tick + 1
        misses := st.misses + 1 } := by
      rw [hpair]
    have h1 : (get ctx st k).1 = none := by
      rw [hpair]
    refine ⟨CInv_congr ctx st _ hinv (by rw [h2]) (by rw [h2]) (by rw [h2]),
      by rw [h2], ?_, ?_⟩
    · intro w hw
      rw [h1] at hw
      cases hw
    · intro j w h
      rw [lookup_congr ctx st (get ctx st k).2 (by rw [h2]) j] at h
      exact h
  | some it =>
    have hi : shardIdx ctx k < st.shards.length :=
      findItem_some_shard_lt st _ k it hf
    have hndS : (keys (getShard st (shardIdx ctx k))).Nodup :=
      hinv.hnodup _ (getD_mem [] st.shards _ hi)
    have hne : getShard st (shardIdx ctx k) ≠ [] := by
      intro he
      rw [he] at hf
      cases hf
    by_cases hev : ctx.pol.shouldEvict st.pol k (st.tick + 1) it.m = true
    · have hinvT : CInv ctx { st with tick := st.tick + 1 } := CInv_congr ctx st _ hinv rfl rfl rfl
      obtain ⟨hrinv, hrcap, hrlook⟩ := remove_spec ctx { st with tick := st.tick + 1 } k hinvT
      have hpair : get ctx st k = (none, { (remove ctx { st with tick := st.tick + 1 } k).2 with
          expirations := ((remove ctx { st with tick := st.tick + 1 } k).2).expirations + 1
          misses := ((remove ctx { st with tick := st.tick + 1 } k).2).misses + 1 }) := by
        unfold get
        dsimp only []
        split
        next heq => exact Option.noConfusion (hf.symm.trans heq)
        next it2 heq =>
          have hit : it2 = it := Option.some.inj (heq.symm.trans hf)
          subst hit
          rw [if_pos hev]
      have h2 : (get ctx st k).2 = { (remove ctx { st with tick := st.tick + 1 } k).2 with
          expirations := ((remove ctx { st with tick := st.tick + 1 } k).2).expirations + 1
          misses := ((remove ctx { st with tick := st.tick + 1 } k).2).misses + 1 } := by
        rw [hpair]
      have h1 : (get ctx st k).1 = none := by
        rw [hpair]
      have hgsh : (get ctx st k).2.shards = ((remove ctx { st with tick := st.tick + 1 } k).2).shards := by
        rw [h2]
      have hgsz : (get ctx st k).2.size = ((remove ctx { st with tick := st.tick + 1 } k).2).size := by
        rw [h2]
      have hgcp : (get ctx st k).2.capacity = ((remove ctx { st with tick := st.tick + 1 } k).2).capacity := by
        rw [h2]
      refine ⟨CInv_congr ctx ((remove ctx { st with tick := st.tick + 1 } k).2) _ hrinv hgsh hgsz hgcp,
        by rw [hgcp, hrcap], ?_, ?_⟩
      · intro w hw
        rw [h1] at hw
        cases hw
      · intro j w h
        rw [lookup_congr ctx ((remove ctx { st with tick := st.tick + 1 } k).2) _ hgsh j] at h
        obtain ⟨hne2, h3⟩ := hrlook j w h
        rw [lookup_congr ctx st { st with tick := st.tick + 1 } rfl j] at h3
        exact h3
    · have hevF : ctx.pol.shouldEvict st.pol k (st.tick + 1) it.m = false :=
        Bool.eq_false_iff.mpr hev
      have hg2 : getShard (setShard { st with
          tick := st.tick + 1
          pol := (ctx.pol.onAccess st.pol k (st.tick + 1) it.m).2 } (shardIdx ctx k) (replaceItem k (⟨k, it.value, (ctx.pol.onAccess st.pol k (st.tick + 1) it.m).1⟩ : Item) (getShard { st with tick := st.tick + 1 } (shardIdx ctx k)))) (shardIdx ctx k) = (replaceItem k (⟨k, it.value, (ctx.pol.onAccess st.pol k (st.tick + 1) it.m).1⟩ : Item) (getShard { st with tick := st.tick + 1 } (shardIdx ctx k))) :=
        getShard_of_set _ st _ _ hi rfl
      have hfT : findItem k (getShard { st with tick := st.tick + 1 } (shardIdx ctx k)) = some it := hf
      have hf2 : findItem k (replaceItem k (⟨k, it.value, (ctx.pol.onAccess st.pol k (st.tick + 1) it.m).1⟩ : Item) (getShard { st with tick := st.tick + 1 } (shardIdx ctx k))) = some (⟨k, it.value, (ctx.pol.onAccess st.pol k (st.tick + 1) it.m).1⟩ : Item) :=
        findItem_replaceItem_self k (⟨k, it.value, (ctx.pol.onAccess st.pol k (st.tick + 1) it.m).1⟩ : Item) rfl _ it hfT
      by_cases hl : ctx.pol.isLRU = true
      · have hpair : get ctx st k = (some it.value,
            { (setShard (setShard { st with
          tick := st.tick + 1
          pol := (ctx.pol.onAccess st.pol k (st.tick + 1) it.m).2 } (shardIdx ctx k) (replaceItem k (⟨k, it.value, (ctx.pol.onAccess st.pol k (st.tick + 1) it.m).1⟩ : Item) (getShard { st with tick := st.tick + 1 } (shardIdx ctx k)))) (shardIdx ctx k) (moveToFront k (replaceItem k (⟨k, it.value, (ctx.pol.onAccess st.pol k (st.tick + 1) it.m).1⟩ : Item) (getShard { st with tick := st.tick + 1 } (shardIdx ctx k))))) with hits := ((setShard (setShard { st with
          tick := st.tick + 1
          pol := (ctx.pol.onAccess st.pol k (st.tick + 1) it.m).2 } (shardIdx ctx k) (replaceItem k (⟨k, it.value, (ctx.pol.onAccess st.pol k (st.tick + 1) it.m).1⟩ : Item) (getShard { st with tick := st.tick + 1 } (shardIdx ctx k)))) (shardIdx ctx k) (moveToFront k (replaceItem k (⟨k, it.value, (ctx.pol.onAccess st.pol k (st.tick + 1) it.m).1⟩ : Item) (getShard { st with tick := st.tick + 1 } (shardIdx ctx k)))))).hits + 1 }) := by
          unfold get
          dsimp only []
          split
          next heq => exact Option.noConfusion (hf.symm.trans heq)
          next it2 heq =>
            have hit : it2 = it := Option.some.inj (heq.symm.trans hf)
            subst hit
            rw [hevF]
            simp only [Bool.false_eq_true, if_false]
            rw [if_pos hl]
            rw [hg2]
            rw [hf2]
        have h2 : (get ctx st k).2
            = { (setShard (setShard { st with
          tick := st.tick + 1
          pol := (ctx.pol.onAccess st.pol k (st.tick + 1) it.m).2 } (shardIdx ctx k) (replaceItem k (⟨k, it.value, (ctx.pol.onAccess st.pol k (st.tick + 1) it.m).1⟩ : Item) (getShard { st with tick := st.tick + 1 } (shardIdx ctx k)))) (shardIdx ctx k) (moveToFront k (replaceItem k (⟨k, it.value, (ctx.pol.onAccess st.pol k (st.tick + 1) it.m).1⟩ : Item) (getShard { st with tick := st.tick + 1 } (shardIdx ctx k))))) with hits := ((setShard (setShard { st with
          tick := st.tick + 1
          pol := (ctx.pol.onAccess st.pol k (st.tick + 1) it.m).2 } (shardIdx ctx k) (replaceItem k (⟨k, it.value, (ctx.pol.onAccess st.pol k (st.tick + 1) it.m).1⟩ : Item) (getShard { st with tick := st.tick + 1 } (shardIdx ctx k)))) (shardIdx ctx k) (moveToFront k (replaceItem k (⟨k, it.value, (ctx.pol.onAccess st.pol k (st.tick + 1) it.m).1⟩ : Item) (getShard { st with tick := st.tick + 1 } (shardIdx ctx k)))))).hits + 1 } := by
          rw [hpair]
        have h1 : (get ctx st k).1 = some it.value := by
          rw [hpair]
        have hgsh : (get ctx st k).2.shards
            = st.shards.set (shardIdx ctx k) (moveToFront k (replaceItem k (⟨k, it.value, (ctx.pol.onAccess st.pol k (st.tick + 1) it.m).1⟩ : Item) (getShard { st with tick := st.tick + 1 } (shardIdx ctx k)))) := by
          rw [h2]
          show (st.shards.set (shardIdx ctx k) (replaceItem k (⟨k, it.value, (ctx.pol.onAccess st.pol k (st.tick + 1) it.m).1⟩ : Item) (getShard { st with tick := st.tick + 1 } (shardIdx ctx k)))).set (shardIdx ctx k)
            (moveToFront k (replaceItem k (⟨k, it.value, (ctx.pol.onAccess st.pol k (st.tick + 1) it.m).1⟩ : Item) (getShard { st with tick := st.tick + 1 } (shardIdx ctx k)))) = st.shards.set (shardIdx ctx k)
            (moveToFront k (replaceItem k (⟨k, it.value, (ctx.pol.onAccess st.pol k (st.tick + 1) it.m).1⟩ : Item) (getShard { st with tick := st.tick + 1 } (shardIdx ctx k))))
          rw [List.set_set]
        have hgsz : (get ctx st k).2.size = st.size := by
          rw [h2]
          rfl
        have hgcp : (get ctx st k).2.capacity = st.capacity := by
          rw [h2]
          rfl
        have hkp : (keys (moveToFront k (replaceItem k (⟨k, it.value, (ctx.pol.onAccess st.pol k (st.tick + 1) it.m).1⟩ : Item) (getShard { st with tick := st.tick + 1 } (shardIdx ctx k))))).Perm
            (keys (getShard st (shardIdx ctx k))) := by
          have hkp1 : (keys (moveToFront k (replaceItem k (⟨k, it.value, (ctx.pol.onAccess st.pol k (st.tick + 1) it.m).1⟩ : Item) (getShard { st with tick := st.tick + 1 } (shardIdx ctx k))))).Perm (keys (replaceItem k (⟨k, it.value, (ctx.pol.onAccess st.pol k (st.tick + 1) it.m).1⟩ : Item) (getShard { st with tick := st.tick + 1 } (shardIdx ctx k)))) :=
            (moveToFront_perm k _).map Item.key
          rw [keys_replaceItem k (⟨k, it.value, (ctx.pol.onAccess st.pol k (st.tick + 1) it.m).1⟩ : Item) rfl] at hkp1
          exact hkp1
        refine ⟨CInv_set_shard ctx st _ (shardIdx ctx k) (moveToFront k (replaceItem k (⟨k, it.value, (ctx.pol.onAccess st.pol k (st.tick + 1) it.m).1⟩ : Item) (getShard { st with tick := st.tick + 1 } (shardIdx ctx k))))
          hinv hi hgsh hgsz hgcp hkp hne, hgcp, ?_, ?_⟩
        · intro w hw
          rw [h1] at hw
          unfold cacheLookup
          rw [hf]
          exact hw
        · intro j w h
          by_cases hjk : j = k
          · subst hjk
            unfold cacheLookup at h
            rw [getShard_of_set _ st _ _ hi hgsh] at h
            rw [findItem_moveToFront, hf2] at h
            unfold cacheLookup
            rw [hf]
            exact h
          · rw [lookup_set_shard_ne ctx st _ k (moveToFront k (replaceItem k (⟨k, it.value, (ctx.pol.onAccess st.pol k (st.tick + 1) it.m).1⟩ : Item) (getShard { st with tick := st.tick + 1 } (shardIdx ctx k)))) hi hgsh
              (fun j2 hj2 => by
                rw [findItem_moveToFront,
                  findItem_replaceItem_ne k j2 (⟨k, it.value, (ctx.pol.onAccess st.pol k (st.tick + 1) it.m).1⟩ : Item) rfl hj2]
                rfl) j hjk] at h
            exact h
      · have hpair : get ctx st k = (some it.value,
            { (setShard { st with
          tick := st.tick + 1
          pol := (ctx.pol.onAccess st.pol k (st.tick + 1) it.m).2 } (shardIdx ctx k) (replaceItem k (⟨k, it.value, (ctx.pol.onAccess st.pol k (st.tick + 1) it.m).1⟩ : Item) (getShard { st with tick := st.tick + 1 } (shardIdx ctx k)))) with hits := ((setShard { st with
          tick := st.tick + 1
          pol := (ctx.pol.onAccess st.pol k (st.tick + 1) it.m).2 } (shardIdx ctx k) (replaceItem k (⟨k, it.value, (ctx.pol.onAccess st.pol k (st.tick + 1) it.m).1⟩ : Item) (getShard { st with tick := st.tick + 1 } (shardIdx ctx k))))).hits + 1 }) := by
          unfold get
          dsimp only []
          split
          next heq => exact Option.noConfusion (hf.symm.trans heq)
          next it2 heq =>
            have hit : it2 = it := Option.some.inj (heq.symm.trans hf)
            subst hit
            rw [hevF]
            simp only [Bool.false_eq_true, if_false]
            rw [if_neg hl]
        have h2 : (get ctx st k).2
            = { (setShard { st with
          tick := st.tick + 1
          pol := (ctx.pol.onAccess st.pol k (st.tick + 1) it.m).2 } (shardIdx ctx k) (replaceItem k (⟨k, it.value, (ctx.pol.onAccess st.pol k (st.tick + 1) it.m).1⟩ : Item) (getShard { st with tick := st.tick + 1 } (shardIdx ctx k)))) with hits := ((setShard { st with
          tick := st.tick + 1
          pol := (ctx.pol.onAccess st.pol k (st.tick + 1) it.m).2 } (shardIdx ctx k) (replaceItem k (⟨k, it.value, (ctx.pol.onAccess st.pol k (st.tick + 1) it.m).1⟩ : Item) (getShard { st with tick := st.tick + 1 } (shardIdx ctx k))))).hits + 1 } := by
          rw [hpair]
        have h1 : (get ctx st k).1 = some it.value := by
          rw [hpair]
        have hgsh : (get ctx st k).2.shards
            = st.shards.set (shardIdx ctx k) (replaceItem k (⟨k, it.value, (ctx.pol.onAccess st.pol k (st.tick + 1) it.m).1⟩ : Item) (getShard { st with tick := st.tick + 1 } (shardIdx ctx k))) := by
          rw [h2]
          rfl
        have hgsz : (get ctx st k).2.size = st.size := by
          rw [h2]
          rfl
        have hgcp : (get ctx st k).2.capacity = st.capacity := by
          rw [h2]
          rfl
        have hkp : (keys (replaceItem k (⟨k, it.value, (ctx.pol.onAccess st.pol k (st.tick + 1) it.m).1⟩ : Item) (getShard { st with tick := st.tick + 1 } (shardIdx ctx k)))).Perm (keys (getShard st (shardIdx ctx k))) := by
          rw [keys_replaceItem k (⟨k, it.value, (ctx.pol.onAccess st.pol k (st.tick + 1) it.m).1⟩ : Item) rfl]
          exact List.Perm.refl _
        refine ⟨CInv_set_shard ctx st _ (shardIdx ctx k) (replaceItem k (⟨k, it.value, (ctx.pol.onAccess st.pol k (st.tick + 1) it.m).1⟩ : Item) (getShard { st with tick := st.tick + 1 } (shardIdx ctx k)))
          hinv hi hgsh hgsz hgcp hkp hne, hgcp, ?_, ?_⟩
        · intro w hw
          rw [h1] at hw
          unfold cacheLookup
          rw [hf]
          exact hw
        · intro j w h
          by_cases hjk : j = k
          · subst hjk
            unfold cacheLookup at h
            rw [getShard_of_set _ st _ _ hi hgsh] at h
            rw [hf2] at h
            unfold cacheLookup
            rw [hf]
            exact h
          · rw [lookup_set_shard_ne ctx st _ k (replaceItem k (⟨k, it.value, (ctx.pol.onAccess st.pol k (st.tick + 1) it.m).1⟩ : Item) (getShard { st with tick := st.tick + 1 } (shardIdx ctx k))) hi hgsh
              (fun j2 hj2 => by
                rw [findItem_replaceItem_ne k j2 (⟨k, it.value, (ctx.pol.onAccess st.pol k (st.tick + 1) it.m).1⟩ : Item) rfl hj2]
                rfl) j hjk] at h
            exact h

end Cache

namespace Cache

theorem applyOp_CInv {σ : Type} (ctx : Ctx σ) (st : CacheState σ) (op : COp)
    (hinv : CInv ctx st) (hsc : 0 < ctx.opts.shardCount)
    (hop : op.isSetCapacity = false) : CInv ctx (applyOp ctx st op) := by
  cases op with
  | put k v => exact (put_spec ctx st k v hinv hsc).1
  | get k => exact (get_spec ctx st k hinv).1
  | remove k => exact (remove_spec ctx st k hinv).1
  | clear => exact clear_CInv ctx st hinv
  | setCapacity n => exact Bool.noConfusion hop

theorem foldl_applyOp_CInv {σ : Type} (ctx : Ctx σ)
    (hsc : 0 < ctx.opts.shardCount) :
    ∀ (ops : List COp) (st : CacheState σ), CInv ctx st →
      (∀ op ∈ ops, op.isSetCapacity = false) →
      CInv ctx (ops.foldl (applyOp ctx) st) := by
  intro ops
  induction ops with
  | nil =>
    intro st h _
    exact h
  | cons op rest ih =>
    intro st h hall
    exact ih _ (applyOp_CInv ctx st op h hsc (hall op (List.mem_cons_self op rest)))
      (fun o ho => hall o (List.mem_cons_of_mem op ho))

theorem runOps_CInv {σ : Type} (ctx : Ctx σ) (ops : List COp)
    (hsc : 0 < ctx.opts.shardCount)
    (hops : ∀ op ∈ ops, op.isSetCapacity = false) :
    CInv ctx (runOps ctx ops) :=
  foldl_applyOp_CInv ctx hsc ops (initState ctx) (initState_CInv ctx) hops

end Cache

namespace DataStore

theorem decode_encode {σ : Type} (ctx : Ctx σ)
    (hrt : ∀ s, ctx.decompress (ctx.compress s) = s) (v : String) :
    decode ctx (encode ctx v) = v := by
  unfold decode encode
  by_cases hc : ctx.enableCompression = true
  · rw [if_pos hc, if_pos hc, hrt]
  · rw [if_neg hc, if_neg hc]

theorem initState_DSInv {σ : Type} (ctx : Ctx σ) :
    DSInv ctx (initState ctx) (fun _ => none) := by
  refine ⟨?_, ?_, ?_⟩
  · intro k
    rfl
  · intro k w h
    have h2 : Cache.cacheLookup ctx.cctx (Cache.initState ctx.cctx) k
        = some w := h
    rw [Cache.initState_lookup_none] at h2
    cases h2
  · exact Cache.initState_CInv ctx.cctx

theorem set_DSInv {σ : Type} (ctx : Ctx σ) (st : State σ)
    (M : String → Option String) (k v : String)
    (hsc : 0 < ctx.cctx.opts.shardCount) (hinv : DSInv ctx st M) :
    DSInv ctx (set ctx st k v) (specApply M (.set k v)) := by
  obtain ⟨hcinv, hcapC, hlook⟩ :=
    Cache.put_spec ctx.cctx st.cache k v hinv.hcinv hsc
  refine ⟨?_, ?_, hcinv⟩
  · intro j
    show (if j = k then some (encode ctx v) else st.store j)
      = ((if j = k then some v else M j).map (encode ctx))
    by_cases hj : j = k
    · rw [if_pos hj, if_pos hj]
      rfl
    · rw [if_neg hj, if_neg hj]
      exact hinv.hstore j
  · intro j w h
    rcases hlook j w h with ⟨hjk, hw⟩ | ⟨hjk, hw⟩
    · show (if j = k then some v else M j) = some w
      rw [if_pos hjk, hw]
    · show (if j = k then some v else M j) = some w
      rw [if_neg hjk]
      exact hinv.hcache j w hw

theorem del_DSInv {σ : Type} (ctx : Ctx σ) (st : State σ)
    (M : String → Option String) (k : String) (hinv : DSInv ctx st M) :
    DSInv ctx (del ctx st k).2 (specApply M (.del k)) := by
  obtain ⟨hrinv, hrcap, hrlook⟩ :=
    Cache.remove_spec ctx.cctx st.cache k hinv.hcinv
  refine ⟨?_, ?_, hrinv⟩
  · intro j
    show (if j = k then none else st.store j)
      = ((if j = k then none else M j).map (encode ctx))
    by_cases hj : j = k
    · rw [if_pos hj, if_pos hj]
      rfl
    · rw [if_neg hj, if_neg hj]
      exact hinv.hstore j
  · intro j w h
    obtain ⟨hjk, hw⟩ := hrlook j w h
    show (if j = k then none else M j) = some w
    rw [if_neg hjk]
    exact hinv.hcache j w hw

theorem get_DSInv {σ : Type} (ctx : Ctx σ) (st : State σ)
    (M : String → Option String) (k : String)
    (hsc : 0 < ctx.cctx.opts.shardCount)
    (hrt : ∀ s, ctx.decompress (ctx.compress s) = s)
    (hinv : DSInv ctx st M) : DSInv ctx (get ctx st k).2 M := by
  obtain ⟨hginv, hgcap, hgfst, hglook⟩ :=
    Cache.get_spec ctx.cctx st.cache k hinv.hcinv
  cases hcg : Cache.get ctx.cctx st.cache k with
  | mk fst c2 =>
  have hc2 : (Cache.get ctx.cctx st.cache k).2 = c2 := by
    rw [hcg]
  cases fst with
  | some w =>
    have h2 : (get ctx st k).2 = { st with cache := c2 } := by
      unfold get
      rw [hcg]
    rw [h2]
    refine ⟨fun j => hinv.hstore j, ?_, hc2 ▸ hginv⟩
    intro j w2 h
    exact hinv.hcache j w2 (hglook j w2 (by rw [hc2]; exact h))
  | none =>
    cases hst : st.store k with
    | none =>
      have h2 : (get ctx st k).2 = { st with cache := c2 } := by
        unfold get
        rw [hcg, hst]
      rw [h2]
      refine ⟨fun j => hinv.hstore j, ?_, hc2 ▸ hginv⟩
      intro j w2 h
      exact hinv.hcache j w2 (hglook j w2 (by rw [hc2]; exact h))
    | some sv =>
      have h2 : (get ctx st k).2
          = { st with cache := Cache.put ctx.cctx c2 k (decode ctx sv) } := by
        unfold get
        rw [hcg, hst]
      obtain ⟨u, hMk⟩ : ∃ u, M k = some u := by
        have hs := hinv.hstore k
        rw [hst] at hs
        cases hMk : M k with
        | none =>
          rw [hMk] at hs
          exact Option.noConfusion hs
        | some u => exact ⟨u, rfl⟩
      have hsv : sv = encode ctx u := by
        have hs := hinv.hstore k
        rw [hst, hMk] at hs
        exact Option.some.inj hs
      have hdec : decode ctx sv = u := by
        rw [hsv, decode_encode ctx hrt u]
      obtain ⟨hpinv, hpcap, hplook⟩ :=
        Cache.put_spec ctx.cctx c2 k (decode ctx sv) (hc2 ▸ hginv) hsc
      rw [h2]
      refine ⟨fun j => hinv.hstore j, ?_, hpinv⟩
      intro j w2 h
      rcases hplook j w2 h with ⟨hjk, hw⟩ | ⟨hjk, hw⟩
      · subst hjk
        rw [hMk, hw, hdec]
      · rw [show c2 = (Cache.get ctx.cctx st.cache k).2 from hc2.symm] at hw
        exact hinv.hcache j w2 (hglook j w2 hw)

theorem applyOp_DSInv {σ : Type} (ctx : Ctx σ) (st : State σ)
    (M : String → Option String) (op : DSOp)
    (hsc : 0 < ctx.cctx.opts.shardCount)
    (hrt : ∀ s, ctx.decompress (ctx.compress s) = s)
    (hinv : DSInv ctx st M) :
    DSInv ctx (applyOp ctx st op) (specApply M op) := by
  cases op with
  | set k v => exact set_DSInv ctx st M k v hsc hinv
  | get k => exact get_DSInv ctx st M k hsc hrt hinv
  | del k => exact del_DSInv ctx st M k hinv

theorem foldl_DSInv {σ : Type} (ctx : Ctx σ)
    (hsc : 0 < ctx.cctx.opts.shardCount)
    (hrt : ∀ s, ctx.decompress (ctx.compress s) = s) :
    ∀ (ops : List DSOp) (st : State σ) (M : String → Option String),
      DSInv ctx st M →
      DSInv ctx (ops.foldl (applyOp ctx) st) (ops.foldl specApply M) := by
  intro ops
  induction ops with
  | nil =>
    intro st M h
    exact h
  | cons op rest ih =>
    intro st M h
    exact ih _ _ (applyOp_DSInv ctx st M op hsc hrt h)

theorem runOps_DSInv {σ : Type} (ctx : Ctx σ) (ops : List DSOp)
    (hsc : 0 < ctx.cctx.opts.shardCount)
    (hrt : ∀ s, ctx.decompress (ctx.compress s) = s) :
    DSInv ctx (runOps ctx ops) (specStore ops) :=
  foldl_DSInv ctx hsc hrt ops (initState ctx) (fun _ => none)
    (initState_DSInv ctx)

end DataStore

/-- C3 (amended): excluding `set_capacity`, the cache size bound holds: for
every sequence of `put`/`get`/`remove`/`clear` operations from a fresh
cache with a positive shard count, `size ≤ capacity + shard_count`. -/
theorem c3_size_bound_without_set_capacity (σ : Type) (ctx : Cache.Ctx σ)
    (ops : List Cache.COp) (hsc : 0 < ctx.opts.shardCount)
    (hops : ∀ op ∈ ops, op.isSetCapacity = false) :
    (Cache.runOps ctx ops).size
      ≤ (Cache.runOps ctx ops).capacity + ctx.opts.shardCount := by
  have hinv := Cache.runOps_CInv ctx ops hsc hops
  have h1 := hinv.hbound
  have h2 : Cache.neCount (Cache.runOps ctx ops).shards
      ≤ (Cache.runOps ctx ops).shards.length := by
    unfold Cache.neCount
    exact List.countP_le_length _
  rw [hinv.hlen] at h2
  omega

/-- Witness: the amended C3 bound at a concrete context and run mixing all
of `put`, `get`, `remove` and `clear`. -/
theorem c3_size_bound_without_set_capacity_witness :
    (Cache.runOps Cache.wctx Cache.c3wops).size
      ≤ (Cache.runOps Cache.wctx Cache.c3wops).capacity
        + Cache.wctx.opts.shardCount :=
  c3_size_bound_without_set_capacity Unit Cache.wctx Cache.c3wops
    (by decide) (by decide)

/-- C2: read-your-writes.  After any sequence of SET/GET/DEL operations,
a GET of key `k` returns exactly the value of the last completed SET of
`k` not followed by a DEL of `k` (and nothing for an unwritten or deleted
key), whether served from the cache or the sub-map, for any compression
codec whose decompress inverts compress (including compression disabled). -/
theorem c2_store_read_your_writes (σ : Type) (ctx : DataStore.Ctx σ)
    (ops : List DataStore.DSOp) (k : String)
    (hsc : 0 < ctx.cctx.opts.shardCount)
    (hrt : ∀ s, ctx.decompress (ctx.compress s) = s) :
    (DataStore.get ctx (DataStore.runOps ctx ops) k).1
      = DataStore.specStore ops k := by
  have hinv := DataStore.runOps_DSInv ctx ops hsc hrt
  obtain ⟨hginv, hgcap, hgfst, hglook⟩ :=
    Cache.get_spec ctx.cctx (DataStore.runOps ctx ops).cache k hinv.hcinv
  cases hcg : Cache.get ctx.cctx (DataStore.runOps ctx ops).cache k with
  | mk fst c2 =>
  cases fst with
  | some w =>
    have h1 : (DataStore.get ctx (DataStore.runOps ctx ops) k).1 = some w := by
      unfold DataStore.get
      rw [hcg]
    have hw : Cache.cacheLookup ctx.cctx (DataStore.runOps ctx ops).cache k
        = some w := hgfst w (by rw [hcg])
    rw [h1]
    exact (hinv.hcache k w hw).symm
  | none =>
    cases hst : (DataStore.runOps ctx ops).store k with
    | none =>
      have h1 : (DataStore.get ctx (DataStore.runOps ctx ops) k).1 = none := by
        unfold DataStore.get
        rw [hcg, hst]
      cases hMk : DataStore.specStore ops k with
      | none => rw [h1]
      | some u =>
        have hs := hinv.hstore k
        rw [hst, hMk] at hs
        exact Option.noConfusion hs
    | some sv =>
      have h1 : (DataStore.get ctx (DataStore.runOps ctx ops) k).1
          = some (DataStore.decode ctx sv) := by
        unfold DataStore.get
        rw [hcg, hst]
      cases hMk : DataStore.specStore ops k with
      | none =>
        have hs := hinv.hstore k
        rw [hst, hMk] at hs
        exact Option.noConfusion hs
      | some u =>
        have hs := hinv.hstore k
        rw [hst, hMk] at hs
        have hsv : sv = DataStore.encode ctx u := Option.some.inj hs
        rw [h1, hsv, DataStore.decode_encode ctx hrt u]

/-- Witness: C2 at the concrete witness store (identity codec, compression
enabled) over a run with overwrites, deletions and cache-warming reads. -/
theorem c2_store_read_your_writes_witness :
    (DataStore.get DataStore.wdctx
        (DataStore.runOps DataStore.wdctx DataStore.wops) ("a")).1
      = DataStore.specStore DataStore.wops ("a") :=
  c2_store_read_your_writes Unit DataStore.wdctx DataStore.wops ("a")
    (by decide) (fun s => rfl)
